import Mathlib

/-!
# Verification of the mdpage V2 sync engine

A shallow embedding of the replica-reconciliation engine of the `mdpage`
repository, covering:

* `src/services/db.ts` — the local IndexedDB store (folders, pages and the
  two tombstone collections);
* `src/services/syncV2/driveV2.ts` — the Google Drive adapter (`DriveV2Service`);
* `src/services/syncV2/serializer.ts` — the wire formats of the four index
  files and the per-page content files;
* `src/services/syncV2/hashCalculator.ts` — `calculateContentHash`;
* `src/services/syncV2/syncManagerV2.ts` — `SyncManagerV2.performSync` and its
  five stages.

Modelling conventions:

* Asynchronous sequential code is modelled by explicit state passing over a
  `World` (local store + remote store + an instrumentation log of the store
  operations performed).  A thrown JS exception is `Except.error (msg, state)`:
  the state at the moment of the throw is carried along, since JS exceptions
  do not roll back store mutations.
* `Date.now()` is modelled by a single `now : Nat` parameter for a run
  (millisecond epoch).  `Date#toLocaleString` (used only to format the conflict
  timestamp) and the SHA-256 digest of the Web Crypto API are external
  primitives and appear as function fields of `Env`; theorems that need
  collision-freeness of the digest assume it injective, which is the spec's
  own "collision-resistant for practical purposes" assumption.
* Remote index files are stored structurally (the `JSON.stringify` /
  `JSON.parse` round trip is the identity on the structured value); the
  `version` tag is kept so that the version check of every deserializer is
  modelled faithfully.
* Each `fetch` to the Drive API can fail independently; `Net` records which
  request classes fail during a run (listing the application folder, listing
  the `pages/` folder, downloading a given file, uploading, deleting).
* JS `Map` built from an entry list keeps the *last* entry for a key
  (`jsMapGet`), and `String#replace` with a string pattern replaces only the
  *first* occurrence (`jsReplaceFirst`); both are modelled as in JS.
-/

namespace MdPage

/-- `Folder` row of the local store (`db.ts`).  The two optional Drive fields
are carried because `serializeFolders` strips them. -/
structure Folder where
  id : String
  name : String
  parentId : Option String
  ord : Int
  createdAt : Nat
  updatedAt : Nat
  driveFileId : Option String := none
  lastSyncedAt : Option Nat := none
deriving DecidableEq, Repr

/-- `Page` row of the local store (`db.ts`).  `editorState` is modelled as the
pair (cursorPosition, scrollTop). -/
structure Page where
  id : String
  folderId : String
  name : String
  content : String
  createdAt : Nat
  updatedAt : Nat
  editorState : Option (Nat × Nat) := none
deriving DecidableEq, Repr

/-- Folder tombstone (`DeletedFolder` in `db.ts`). -/
structure DeletedFolder where
  folderId : String
  deletedAt : Nat
deriving DecidableEq, Repr

/-- Page tombstone (`DeletedPage` in `db.ts`). -/
structure DeletedPage where
  pageId : String
  deletedAt : Nat
deriving DecidableEq, Repr

/-- `PageMetadata` of `serializer.ts` — the remote-side projection of a page. -/
structure PageMetadata where
  id : String
  name : String
  folderId : String
  createdAt : Nat
  updatedAt : Nat
  contentHash : String
  contentSize : Nat
deriving DecidableEq, Repr

/-- `folders.json` wire format (`FoldersFile`). -/
structure FoldersFile where
  version : String
  lastModified : Nat
  folders : List Folder
deriving DecidableEq, Repr

/-- `deletedFolders.json` wire format (`DeletedFoldersFile`). -/
structure DeletedFoldersFile where
  version : String
  deleted : List DeletedFolder
deriving DecidableEq, Repr

/-- `pages.json` wire format (`PagesFile`). -/
structure PagesFile where
  version : String
  lastModified : Nat
  pages : List PageMetadata
deriving DecidableEq, Repr

/-- `deletedPages.json` wire format (`DeletedPagesFile`). -/
structure DeletedPagesFile where
  version : String
  deleted : List DeletedPage
deriving DecidableEq, Repr

/-- External primitives of the environment: the SHA-256 hex digest of the Web
Crypto API (`crypto.subtle.digest` followed by hex encoding), whether that
primitive is available (it throws in insecure contexts, which is the
`catch` branch of `calculateContentHash`), and
`Date#toLocaleString('zh-TW', ...)` used to format the conflict-copy
timestamp. -/
structure Env where
  digest : String → String
  digestOk : Bool
  fmtTime : Nat → String

/-- Which Drive API requests fail during a run (network/auth failure of the
individual `fetch`).  `downloadFails` lists the file names whose content GET
fails. -/
structure Net where
  initFails : Bool
  listAppFails : Bool
  listPagesFails : Bool
  downloadFails : List String
  uploadFails : Bool
  deleteFails : Bool
deriving DecidableEq, Repr

/-- All requests succeed. -/
def Net.allOk : Net := ⟨false, false, false, [], false, false⟩

/-- One store operation, for the instrumentation log. -/
inductive Op where
  | dbGetAllFolders
  | dbGetFolder (id : String)
  | dbCreateFolder (id : String)
  | dbUpdateFolder (id : String)
  | dbSilentDeleteFolder (id : String)
  | dbGetAllPages
  | dbGetPage (id : String)
  | dbCreatePage (id : String)
  | dbUpdatePage (id : String)
  | dbSilentDeletePage (id : String)
  | dbGetDeletedFolders
  | dbGetDeletedPages
  | dbAddDeletedFolder (id : String)
  | dbAddDeletedPage (id : String)
  | driveListApp
  | driveListPages
  | driveGetFile (name : String)
  | drivePutIndex (name : String)
  | drivePutPage (id : String)
  | driveDeleteFile (name : String)
  | driveDeleteCall (id : String)
deriving DecidableEq, Repr

/-- Whether an operation mutates one of the two stores.  `driveDeleteCall`
records that `deletePageContent` was invoked; the DELETE request itself (only
sent when the file exists) is `driveDeleteFile`. -/
def Op.isWrite : Op → Bool
  | .dbCreateFolder _ => true
  | .dbUpdateFolder _ => true
  | .dbSilentDeleteFolder _ => true
  | .dbCreatePage _ => true
  | .dbUpdatePage _ => true
  | .dbSilentDeletePage _ => true
  | .dbAddDeletedFolder _ => true
  | .dbAddDeletedPage _ => true
  | .drivePutIndex _ => true
  | .drivePutPage _ => true
  | .driveDeleteFile _ => true
  | _ => false

/-- The local IndexedDB store.  `upgraded` records whether the two tombstone
object stores exist (they are created by the version-2 upgrade; on an
un-upgraded database a transaction on them throws). -/
structure LocalStore where
  folders : List Folder
  pages : List Page
  deletedFolders : List DeletedFolder
  deletedPages : List DeletedPage
  upgraded : Bool
deriving DecidableEq, Repr

/-- The remote Drive namespace: the four index files of the application folder
and the content files of the `pages/` subfolder as (file name, content)
pairs. -/
structure Remote where
  foldersJson : Option FoldersFile
  deletedFoldersJson : Option DeletedFoldersFile
  pagesJson : Option PagesFile
  deletedPagesJson : Option DeletedPagesFile
  pageFiles : List (String × String)
deriving DecidableEq, Repr

/-- Full state threaded through a run: the two stores and the operation log. -/
structure World where
  loc : LocalStore
  drive : Remote
  log : List Op
deriving DecidableEq, Repr

def World.pushOp (w : World) (o : Op) : World :=
  { w with log := w.log ++ [o] }

/-- JS `Map` lookup for a map built with `new Map(xs.map (x => [key x, x]))`:
insertion with an existing key overwrites, so the lookup returns the last
entry with that key. -/
def jsMapGet {α : Type} (key : α → String) (xs : List α) (k : String) : Option α :=
  (xs.filter (fun x => key x = k)).getLast?

/-- JS `String#replace` with a string pattern replaces only the first
occurrence; the engine always replaces with the empty string.  List form. -/
def removeFirstL (pat : List Char) : List Char → List Char
  | [] => []
  | c :: cs => if pat.isPrefixOf (c :: cs) then (c :: cs).drop pat.length
               else c :: removeFirstL pat cs

/-- `s.replace(pat, '')` of JS, for a nonempty string pattern. -/
def jsReplaceFirst (s pat : String) : String :=
  String.mk (removeFirstL pat.toList s.toList)

/-- `f.name.replace('page-', '').replace('.md', '')` of `syncPageContents`. -/
def stripPageFileName (name : String) : String :=
  jsReplaceFirst (jsReplaceFirst name "page-") ".md"

-- ==================== Local store primitives (db.ts) ====================

def keyExistsMsg : String := "ConstraintError: Key already exists in the object store."

def dbGetAllFolders (w : World) : List Folder × World :=
  (w.loc.folders, w.pushOp .dbGetAllFolders)

def dbGetFolder (id : String) (w : World) : Option Folder × World :=
  (w.loc.folders.find? (fun f => f.id = id), w.pushOp (.dbGetFolder id))

/-- `createFolder` uses `store.add`, which throws when the key exists. -/
def dbCreateFolder (f : Folder) (w : World) : Except (String × World) World :=
  let w := w.pushOp (.dbCreateFolder f.id)
  if w.loc.folders.any (fun g => g.id = f.id) then .error (keyExistsMsg, w)
  else .ok { w with loc := { w.loc with folders := w.loc.folders ++ [f] } }

/-- `silentDeleteFolder`: plain delete, no tombstone recorded. -/
def dbSilentDeleteFolder (id : String) (w : World) : World :=
  let w := w.pushOp (.dbSilentDeleteFolder id)
  { w with loc := { w.loc with folders := w.loc.folders.filter (fun f => f.id ≠ id) } }

def dbGetAllPages (w : World) : List Page × World :=
  (w.loc.pages, w.pushOp .dbGetAllPages)

def dbGetPage (id : String) (w : World) : Option Page × World :=
  (w.loc.pages.find? (fun p => p.id = id), w.pushOp (.dbGetPage id))

/-- `createPage` uses `store.add`, which throws when the key exists. -/
def dbCreatePage (p : Page) (w : World) : Except (String × World) World :=
  let w := w.pushOp (.dbCreatePage p.id)
  if w.loc.pages.any (fun q => q.id = p.id) then .error (keyExistsMsg, w)
  else .ok { w with loc := { w.loc with pages := w.loc.pages ++ [p] } }

/-- `updatePage` uses `store.put`: replace the row with that key, or insert. -/
def dbUpdatePage (p : Page) (w : World) : World :=
  let w := w.pushOp (.dbUpdatePage p.id)
  if w.loc.pages.any (fun q => q.id = p.id) then
    { w with loc := { w.loc with
        pages := w.loc.pages.map (fun q => if q.id = p.id then p else q) } }
  else
    { w with loc := { w.loc with pages := w.loc.pages ++ [p] } }

def dbSilentDeletePage (id : String) (w : World) : World :=
  let w := w.pushOp (.dbSilentDeletePage id)
  { w with loc := { w.loc with pages := w.loc.pages.filter (fun p => p.id ≠ id) } }

def notUpgradedMsg : String := "NotFoundError: One of the specified object stores was not found."

/-- `getAllDeletedFolders` throws on an un-upgraded database. -/
def dbGetAllDeletedFolders (w : World) : Except (String × World) (List DeletedFolder × World) :=
  let w := w.pushOp .dbGetDeletedFolders
  if w.loc.upgraded then .ok (w.loc.deletedFolders, w) else .error (notUpgradedMsg, w)

def dbGetAllDeletedPages (w : World) : Except (String × World) (List DeletedPage × World) :=
  let w := w.pushOp .dbGetDeletedPages
  if w.loc.upgraded then .ok (w.loc.deletedPages, w) else .error (notUpgradedMsg, w)

-- ==================== Hash calculator (hashCalculator.ts) ====================

/-- `calculateContentHash`: SHA-256 hex digest via the Web Crypto API; if the
digest primitive throws, a fallback identifier built from the string length
and the current time.  (`content.length` of JS counts UTF-16 units; the
difference to `String.length` does not matter for any claim.) -/
def calculateContentHash (env : Env) (now : Nat) (content : String) : String :=
  if env.digestOk then env.digest content
  else "fallback-" ++ toString content.length ++ "-" ++ toString now

-- ==================== Serializer (serializer.ts) ====================

/-- `serializeFolders`: stamp version and `lastModified`, strip the two
Drive-sync fields from every folder. -/
def serializeFolders (now : Nat) (folders : List Folder) : FoldersFile :=
  { version := "2.0", lastModified := now,
    folders := folders.map (fun f => { f with driveFileId := none, lastSyncedAt := none }) }

/-- `deserializeFolders`: version check. -/
def deserializeFolders (f : FoldersFile) : Except String FoldersFile :=
  if f.version = "2.0" then .ok f
  else .error ("Unsupported folders.json version: " ++ f.version)

def serializeDeletedFolders (deleted : List DeletedFolder) : DeletedFoldersFile :=
  { version := "2.0", deleted := deleted }

def deserializeDeletedFolders (f : DeletedFoldersFile) : Except String DeletedFoldersFile :=
  if f.version = "2.0" then .ok f
  else .error ("Unsupported deletedFolders.json version: " ++ f.version)

/-- The metadata row `serializePages` derives from one page: the content hash
and the `Blob` size (UTF-8 byte count) are recomputed. -/
def pageToMetadata (env : Env) (now : Nat) (p : Page) : PageMetadata :=
  { id := p.id, name := p.name, folderId := p.folderId,
    createdAt := p.createdAt, updatedAt := p.updatedAt,
    contentHash := calculateContentHash env now p.content,
    contentSize := p.content.utf8ByteSize }

def serializePages (env : Env) (now : Nat) (pages : List Page) : PagesFile :=
  { version := "2.0", lastModified := now, pages := pages.map (pageToMetadata env now) }

def deserializePages (f : PagesFile) : Except String PagesFile :=
  if f.version = "2.0" then .ok f
  else .error ("Unsupported pages.json version: " ++ f.version)

def serializeDeletedPages (deleted : List DeletedPage) : DeletedPagesFile :=
  { version := "2.0", deleted := deleted }

def deserializeDeletedPages (f : DeletedPagesFile) : Except String DeletedPagesFile :=
  if f.version = "2.0" then .ok f
  else .error ("Unsupported deletedPages.json version: " ++ f.version)

/-- `serializePageContent`: the raw markdown text. -/
def serializePageContent (p : Page) : String := p.content

/-- `deserializePageContent`: identity. -/
def deserializePageContent (markdown : String) : String := markdown

/-- `getPageFileName`. -/
def getPageFileName (pageId : String) : String := "page-" ++ pageId ++ ".md"

/-- Characters matched by `.` in a JS regex without the `s` flag: everything
except the four line terminators. -/
def jsDotChar (c : Char) : Bool :=
  c ≠ '\n' && c ≠ '\r' && c.toNat ≠ 0x2028 && c.toNat ≠ 0x2029

/-- `parsePageFileName`, the match against `/^page-(.+)\.md$/` on a list of
characters: the name decomposes as `page-` ++ mid ++ `.md` with `mid`
nonempty and every character of `mid` matched by `.`. -/
def parsePageFileNameL (cs : List Char) : Option (List Char) :=
  if "page-".toList.isPrefixOf cs ∧ ".md".toList.isSuffixOf cs ∧ 9 ≤ cs.length then
    let mid := (cs.drop 5).take (cs.length - 8)
    if mid.all jsDotChar then some mid else none
  else none

def parsePageFileName (fileName : String) : Option String :=
  (parsePageFileNameL fileName.toList).map String.mk

-- ==================== Drive adapter primitives (driveV2.ts) ====================

/-- `downloadFoldersJson`: list the app folder, find `folders.json`, download
it; any error is caught and surfaced as `null`, indistinguishable from an
absent file. -/
def driveDownloadFoldersJson (net : Net) (w : World) : Option FoldersFile × World :=
  let w := w.pushOp .driveListApp
  if net.listAppFails then (none, w)
  else match w.drive.foldersJson with
    | none => (none, w)
    | some file =>
        let w := w.pushOp (.driveGetFile "folders.json")
        if net.downloadFails.contains "folders.json" then (none, w) else (some file, w)

def driveDownloadDeletedFoldersJson (net : Net) (w : World) : Option DeletedFoldersFile × World :=
  let w := w.pushOp .driveListApp
  if net.listAppFails then (none, w)
  else match w.drive.deletedFoldersJson with
    | none => (none, w)
    | some file =>
        let w := w.pushOp (.driveGetFile "deletedFolders.json")
        if net.downloadFails.contains "deletedFolders.json" then (none, w) else (some file, w)

def driveDownloadPagesJson (net : Net) (w : World) : Option PagesFile × World :=
  let w := w.pushOp .driveListApp
  if net.listAppFails then (none, w)
  else match w.drive.pagesJson with
    | none => (none, w)
    | some file =>
        let w := w.pushOp (.driveGetFile "pages.json")
        if net.downloadFails.contains "pages.json" then (none, w) else (some file, w)

def driveDownloadDeletedPagesJson (net : Net) (w : World) : Option DeletedPagesFile × World :=
  let w := w.pushOp .driveListApp
  if net.listAppFails then (none, w)
  else match w.drive.deletedPagesJson with
    | none => (none, w)
    | some file =>
        let w := w.pushOp (.driveGetFile "deletedPages.json")
        if net.downloadFails.contains "deletedPages.json" then (none, w) else (some file, w)

/-- `uploadFoldersJson` (via `uploadOrUpdateFile`): create-or-replace; a failed
request throws. -/
def driveUploadFoldersJson (net : Net) (file : FoldersFile) (w : World) :
    Except (String × World) World :=
  let w := w.pushOp (.drivePutIndex "folders.json")
  if net.uploadFails then .error ("Failed to upload folders.json", w)
  else .ok { w with drive := { w.drive with foldersJson := some file } }

def driveUploadDeletedFoldersJson (net : Net) (file : DeletedFoldersFile) (w : World) :
    Except (String × World) World :=
  let w := w.pushOp (.drivePutIndex "deletedFolders.json")
  if net.uploadFails then .error ("Failed to upload deletedFolders.json", w)
  else .ok { w with drive := { w.drive with deletedFoldersJson := some file } }

def driveUploadPagesJson (net : Net) (file : PagesFile) (w : World) :
    Except (String × World) World :=
  let w := w.pushOp (.drivePutIndex "pages.json")
  if net.uploadFails then .error ("Failed to upload pages.json", w)
  else .ok { w with drive := { w.drive with pagesJson := some file } }

def driveUploadDeletedPagesJson (net : Net) (file : DeletedPagesFile) (w : World) :
    Except (String × World) World :=
  let w := w.pushOp (.drivePutIndex "deletedPages.json")
  if net.uploadFails then .error ("Failed to upload deletedPages.json", w)
  else .ok { w with drive := { w.drive with deletedPagesJson := some file } }

/-- Create-or-replace in the `pages/` file list, keeping the position of an
existing file. -/
def putPageFile (name content : String) : List (String × String) → List (String × String)
  | [] => [(name, content)]
  | (n, c) :: rest =>
      if n = name then (n, content) :: rest else (n, c) :: putPageFile name content rest

def lookupPageFile (name : String) (files : List (String × String)) : Option String :=
  (files.find? (fun f => f.1 = name)).map Prod.snd

/-- `uploadPageContent`. -/
def driveUploadPageContent (net : Net) (pageId content : String) (w : World) :
    Except (String × World) World :=
  let w := w.pushOp (.drivePutPage pageId)
  if net.uploadFails then .error ("Failed to upload page-" ++ pageId ++ ".md", w)
  else .ok { w with drive := { w.drive with
      pageFiles := putPageFile ("page-" ++ pageId ++ ".md") content w.drive.pageFiles } }

/-- `downloadPageContent`: list the `pages/` folder, find the file, download;
any error is caught and surfaced as `null`. -/
def driveDownloadPageContent (net : Net) (pageId : String) (w : World) :
    Option String × World :=
  let w := w.pushOp .driveListPages
  if net.listPagesFails then (none, w)
  else
    let name := "page-" ++ pageId ++ ".md"
    match lookupPageFile name w.drive.pageFiles with
    | none => (none, w)
    | some content =>
        let w := w.pushOp (.driveGetFile name)
        if net.downloadFails.contains name then (none, w) else (some content, w)

/-- `deletePageContent`: list, find, delete if present; every error is caught,
so the call never throws. -/
def driveDeletePageContent (net : Net) (pageId : String) (w : World) : World :=
  let w := w.pushOp (.driveDeleteCall pageId)
  let w := w.pushOp .driveListPages
  if net.listPagesFails then w
  else
    let name := "page-" ++ pageId ++ ".md"
    match lookupPageFile name w.drive.pageFiles with
    | none => w
    | some _ =>
        if net.deleteFails then w
        else
          let w := w.pushOp (.driveDeleteFile name)
          { w with drive := { w.drive with
              pageFiles := w.drive.pageFiles.filter (fun f => f.1 ≠ name) } }

/-- `listAllPageFiles`: the file names of the `pages/` folder; a failed listing
throws (the callers in `syncPageContents` do not catch it). -/
def driveListAllPageFiles (net : Net) (w : World) :
    Except (String × World) (List String × World) :=
  let w := w.pushOp .driveListPages
  if net.listPagesFails then .error ("Failed to list files in folder pages", w)
  else .ok (w.drive.pageFiles.map Prod.fst, w)

-- ==================== Sync orchestrator (syncManagerV2.ts) ====================

/-- The result record returned by `performSync`. -/
structure SyncResult where
  success : Bool
  foldersUploaded : Nat
  foldersDownloaded : Nat
  foldersDeleted : Nat
  pagesUploaded : Nat
  pagesDownloaded : Nat
  pagesDeleted : Nat
  conflicts : Nat
  errors : List String
deriving DecidableEq, Repr

/-- The result record as initialised at the top of `performSync`. -/
def SyncResult.init : SyncResult :=
  { success := false, foldersUploaded := 0, foldersDownloaded := 0, foldersDeleted := 0,
    pagesUploaded := 0, pagesDownloaded := 0, pagesDeleted := 0, conflicts := 0, errors := [] }

/-- World plus the mutable result record threaded through the five stages. -/
structure Run where
  w : World
  r : SyncResult
deriving DecidableEq, Repr

/-- `compareFolders`: a folder goes to `toUpload` when it is local-only or
strictly newer locally, to `toDownload` when it is Drive-only or strictly
newer on Drive. -/
def compareFolders (localFolders driveFolders : List Folder) :
    List Folder × List Folder :=
  let toUpload := localFolders.filter (fun lf =>
    match jsMapGet Folder.id driveFolders lf.id with
    | none => true
    | some df => decide (df.updatedAt < lf.updatedAt))
  let toDownload := driveFolders.filter (fun df =>
    match jsMapGet Folder.id localFolders df.id with
    | none => true
    | some lf => decide (lf.updatedAt < df.updatedAt))
  (toUpload, toDownload)

/-- `comparePages`: same shape as `compareFolders` on page metadata. -/
def comparePages (localPages : List Page) (drivePages : List PageMetadata) :
    List Page × List PageMetadata :=
  let toUpload := localPages.filter (fun lp =>
    match jsMapGet PageMetadata.id drivePages lp.id with
    | none => true
    | some dp => decide (dp.updatedAt < lp.updatedAt))
  let toDownload := drivePages.filter (fun dp =>
    match jsMapGet Page.id localPages dp.id with
    | none => true
    | some lp => decide (lp.updatedAt < dp.updatedAt))
  (toUpload, toDownload)

/-- One step of the merge loop of `mergeDeletedRecords`: `map.get` returns
`undefined` for a missing key, and JS `!existing` is also true for the number
0, so a stored `deletedAt` of 0 is always overwritten. -/
def upsertDeleted (acc : List (String × Nat)) (k : String) (v : Nat) : List (String × Nat) :=
  match (acc.find? (fun e => e.1 = k)).map Prod.snd with
  | none => acc ++ [(k, v)]
  | some old =>
      if old = 0 ∨ old < v then acc.map (fun e => if e.1 = k then (k, v) else e) else acc

/-- `mergeDeletedRecords` (folder tombstones): last-writer-wins merge by id,
in first-insertion order over `[...local, ...drive]`. -/
def mergeDeletedRecords (localDel driveDel : List DeletedFolder) : List DeletedFolder :=
  (((localDel ++ driveDel).map (fun d => (d.folderId, d.deletedAt))).foldl
      (fun acc e => upsertDeleted acc e.1 e.2) []).map (fun e => ⟨e.1, e.2⟩)

/-- `mergePageDeletedRecords` (page tombstones). -/
def mergePageDeletedRecords (localDel driveDel : List DeletedPage) : List DeletedPage :=
  (((localDel ++ driveDel).map (fun d => (d.pageId, d.deletedAt))).foldl
      (fun acc e => upsertDeleted acc e.1 e.2) []).map (fun e => ⟨e.1, e.2⟩)

/-- JS `Set` built from a list: distinct elements in first-occurrence order. -/
def jsSetAux (seen : List String) : List String → List String
  | [] => []
  | x :: xs => if seen.contains x then jsSetAux seen xs else x :: jsSetAux (x :: seen) xs

def jsSet (xs : List String) : List String := jsSetAux [] xs

-- ==================== Stage A: syncFolders ====================

/-- Step 5 of `syncFolders`: `db.createFolder` for every folder to download,
counting `foldersDownloaded`. -/
def downloadFoldersLoop : List Folder → Run → Except (String × Run) Run
  | [], s => .ok s
  | f :: fs, s =>
      match dbCreateFolder f s.w with
      | .error (e, w) => .error (e, ⟨w, s.r⟩)
      | .ok w =>
          downloadFoldersLoop fs ⟨w, { s.r with foldersDownloaded := s.r.foldersDownloaded + 1 }⟩

def syncFolders (net : Net) (now : Nat) (s : Run) : Except (String × Run) Run :=
  let (localFolders, w) := dbGetAllFolders s.w
  let (mj, w) := driveDownloadFoldersJson net w
  match mj with
  | none =>
      match driveUploadFoldersJson net (serializeFolders now localFolders) w with
      | .error (e, w) => .error (e, ⟨w, s.r⟩)
      | .ok w => .ok ⟨w, { s.r with foldersUploaded := localFolders.length }⟩
  | some raw =>
      match deserializeFolders raw with
      | .error e => .error (e, ⟨w, s.r⟩)
      | .ok file =>
          let driveFolders := file.folders
          let cmp := compareFolders localFolders driveFolders
          match downloadFoldersLoop cmp.2 ⟨w, s.r⟩ with
          | .error es => .error es
          | .ok s1 =>
              if 0 < cmp.1.length ∨ 0 < cmp.2.length then
                let (allLocal, w) := dbGetAllFolders s1.w
                match driveUploadFoldersJson net (serializeFolders now allLocal) w with
                | .error (e, w) => .error (e, ⟨w, s1.r⟩)
                | .ok w => .ok ⟨w, { s1.r with foldersUploaded := cmp.1.length }⟩
              else .ok s1

-- ==================== Stage B: syncDeletedFolders ====================

/-- Step 4 of `syncDeletedFolders`: silently delete every local folder that has
a Drive tombstone, counting `foldersDeleted`. -/
def deleteFoldersLoop : List DeletedFolder → Run → Run
  | [], s => s
  | d :: ds, s =>
      let (mf, w) := dbGetFolder d.folderId s.w
      match mf with
      | some _ =>
          let w := dbSilentDeleteFolder d.folderId w
          deleteFoldersLoop ds ⟨w, { s.r with foldersDeleted := s.r.foldersDeleted + 1 }⟩
      | none => deleteFoldersLoop ds ⟨w, s.r⟩

def syncDeletedFolders (net : Net) (s : Run) : Except (String × Run) Run :=
  match dbGetAllDeletedFolders s.w with
  | .error (_, w) => .ok ⟨w, s.r⟩
  | .ok (localDeleted, w) =>
      let (mj, w) := driveDownloadDeletedFoldersJson net w
      match mj with
      | none =>
          if 0 < localDeleted.length then
            match driveUploadDeletedFoldersJson net (serializeDeletedFolders localDeleted) w with
            | .error (e, w) => .error (e, ⟨w, s.r⟩)
            | .ok w => .ok ⟨w, s.r⟩
          else .ok ⟨w, s.r⟩
      | some raw =>
          match deserializeDeletedFolders raw with
          | .error e => .error (e, ⟨w, s.r⟩)
          | .ok file =>
              let s1 := deleteFoldersLoop file.deleted ⟨w, s.r⟩
              let merged := mergeDeletedRecords localDeleted file.deleted
              match driveUploadDeletedFoldersJson net (serializeDeletedFolders merged) s1.w with
              | .error (e, w) => .error (e, ⟨w, s1.r⟩)
              | .ok w => .ok ⟨w, s1.r⟩

-- ==================== Stage C: syncPages ====================

def syncPages (env : Env) (net : Net) (now : Nat) (s : Run) : Except (String × Run) Run :=
  let (localPages, w) := dbGetAllPages s.w
  let (mj, w) := driveDownloadPagesJson net w
  match mj with
  | none =>
      match driveUploadPagesJson net (serializePages env now localPages) w with
      | .error (e, w) => .error (e, ⟨w, s.r⟩)
      | .ok w => .ok ⟨w, { s.r with pagesUploaded := localPages.length }⟩
  | some raw =>
      match deserializePages raw with
      | .error e => .error (e, ⟨w, s.r⟩)
      | .ok file =>
          let cmp := comparePages localPages file.pages
          if 0 < cmp.1.length ∨ 0 < cmp.2.length then
            match driveUploadPagesJson net (serializePages env now localPages) w with
            | .error (e, w) => .error (e, ⟨w, s.r⟩)
            | .ok w => .ok ⟨w, s.r⟩
          else .ok ⟨w, s.r⟩

-- ==================== Stage D: syncDeletedPages ====================

/-- Step 4 of `syncDeletedPages`: silently delete every local page that has a
Drive tombstone, and issue `deletePageContent` for every Drive tombstone. -/
def deletePagesLoop (net : Net) : List DeletedPage → Run → Run
  | [], s => s
  | d :: ds, s =>
      let (mp, w) := dbGetPage d.pageId s.w
      let wr :=
        match mp with
        | some _ =>
            (dbSilentDeletePage d.pageId w,
             { s.r with pagesDeleted := s.r.pagesDeleted + 1 })
        | none => (w, s.r)
      let w := driveDeletePageContent net d.pageId wr.1
      deletePagesLoop net ds ⟨w, wr.2⟩

def syncDeletedPages (net : Net) (s : Run) : Except (String × Run) Run :=
  match dbGetAllDeletedPages s.w with
  | .error (_, w) => .ok ⟨w, s.r⟩
  | .ok (localDeleted, w) =>
      let (mj, w) := driveDownloadDeletedPagesJson net w
      match mj with
      | none =>
          if 0 < localDeleted.length then
            match driveUploadDeletedPagesJson net (serializeDeletedPages localDeleted) w with
            | .error (e, w) => .error (e, ⟨w, s.r⟩)
            | .ok w => .ok ⟨w, s.r⟩
          else .ok ⟨w, s.r⟩
      | some raw =>
          match deserializeDeletedPages raw with
          | .error e => .error (e, ⟨w, s.r⟩)
          | .ok file =>
              let s1 := deletePagesLoop net file.deleted ⟨w, s.r⟩
              let merged := mergePageDeletedRecords localDeleted file.deleted
              match driveUploadDeletedPagesJson net (serializeDeletedPages merged) s1.w with
              | .error (e, w) => .error (e, ⟨w, s1.r⟩)
              | .ok w => .ok ⟨w, s1.r⟩

-- ==================== Stage E: syncPageContents ====================

/-- Title extraction of the metadata-rebuild path: first non-empty line,
either stripped of a leading `# ` or truncated to 50 characters. -/
def extractPageName : List String → String
  | [] => "Untitled"
  | line :: rest =>
      let t := line.trim
      if t ≠ "" ∧ ¬ t.startsWith "#" then t.take 50
      else if t.startsWith "# " then (t.drop 2).trim
      else extractPageName rest

/-- Metadata-rebuild loop: download each content file that has no `pages.json`
entry and append a reconstructed entry (stamped with the current time). -/
def rebuildMetadataLoop (env : Env) (net : Net) (now : Nat) (defaultFolderId : String) :
    List String → List PageMetadata → World → List PageMetadata × World
  | [], drivePages, w => (drivePages, w)
  | pid :: rest, drivePages, w =>
      let cw := driveDownloadPageContent net pid w
      match cw.1 with
      | none => rebuildMetadataLoop env net now defaultFolderId rest drivePages cw.2
      | some content =>
          let pageContent := deserializePageContent content
          let contentHash := calculateContentHash env now pageContent
          let pageName := extractPageName (pageContent.splitOn "\n")
          rebuildMetadataLoop env net now defaultFolderId rest
            (drivePages ++ [{ id := pid, name := pageName, folderId := defaultFolderId,
                              createdAt := now, updatedAt := now,
                              contentHash := contentHash, contentSize := content.length }])
            cw.2

/-- The upload condition of the upload pass: no Drive metadata, or no actual
content file, or differing content hash. -/
def needUpload (env : Env) (now : Nat) (drivePages : List PageMetadata)
    (fileIds : List String) (p : Page) : Bool :=
  match jsMapGet PageMetadata.id drivePages p.id with
  | none => true
  | some dp =>
      if fileIds.contains p.id then
        decide (calculateContentHash env now p.content ≠ dp.contentHash)
      else true

/-- Upload pass of `syncPageContents`. -/
def uploadPassLoop (env : Env) (net : Net) (now : Nat) (drivePages : List PageMetadata)
    (fileIds : List String) : List Page → Run → Except (String × Run) Run
  | [], s => .ok s
  | p :: ps, s =>
      if needUpload env now drivePages fileIds p then
        match driveUploadPageContent net p.id (serializePageContent p) s.w with
        | .error (e, w) => .error (e, ⟨w, s.r⟩)
        | .ok w =>
            uploadPassLoop env net now drivePages fileIds ps
              ⟨w, { s.r with pagesUploaded := s.r.pagesUploaded + 1 }⟩
      else uploadPassLoop env net now drivePages fileIds ps s

/-- Body of the download / conflict pass, for one Drive metadata entry.
`localPages` is the snapshot read at the top of the stage. -/
def processDrivePage (env : Env) (net : Net) (now : Nat) (localPages : List Page)
    (dp : PageMetadata) (s : Run) : Except (String × Run) Run :=
  match jsMapGet Page.id localPages dp.id with
  | none =>
      let cw := driveDownloadPageContent net dp.id s.w
      match cw.1 with
      | none => .ok ⟨cw.2, s.r⟩
      | some content =>
          let newPage : Page :=
            { id := dp.id, name := dp.name, folderId := dp.folderId,
              content := deserializePageContent content,
              createdAt := dp.createdAt, updatedAt := dp.updatedAt }
          match dbCreatePage newPage cw.2 with
          | .error (e, w) => .error (e, ⟨w, s.r⟩)
          | .ok w => .ok ⟨w, { s.r with pagesDownloaded := s.r.pagesDownloaded + 1 }⟩
  | some localPage =>
      let localHash := calculateContentHash env now localPage.content
      if localHash ≠ dp.contentHash then
        if localPage.updatedAt ≤ dp.updatedAt then
          let cw := driveDownloadPageContent net dp.id s.w
          match cw.1 with
          | none => .ok ⟨cw.2, s.r⟩
          | some driveContent =>
              let driveContentText := deserializePageContent driveContent
              let driveHash := calculateContentHash env now driveContentText
              if localHash ≠ driveHash ∧ localPage.content ≠ driveContentText then
                let conflictPage : Page :=
                  { localPage with
                    id := localPage.id ++ "_conflict_" ++ toString now,
                    name := localPage.name ++ " (衝突副本 " ++ env.fmtTime now ++ ")" }
                match dbCreatePage conflictPage cw.2 with
                | .error (e, w) => .error (e, ⟨w, s.r⟩)
                | .ok w =>
                    let updated : Page :=
                      { localPage with
                        content := driveContentText,
                        name := dp.name,
                        updatedAt := dp.updatedAt }
                    let w := dbUpdatePage updated w
                    .ok ⟨w, { s.r with
                              conflicts := s.r.conflicts + 1,
                              pagesDownloaded := s.r.pagesDownloaded + 1 }⟩
              else
                let updated : Page :=
                  { localPage with
                    content := driveContentText,
                    name := dp.name,
                    updatedAt := dp.updatedAt }
                let w := dbUpdatePage updated cw.2
                .ok ⟨w, { s.r with pagesDownloaded := s.r.pagesDownloaded + 1 }⟩
        else .ok s
      else .ok s

/-- Download / conflict pass of `syncPageContents`. -/
def downloadPassLoop (env : Env) (net : Net) (now : Nat) (localPages : List Page) :
    List PageMetadata → Run → Except (String × Run) Run
  | [], s => .ok s
  | dp :: dps, s =>
      match processDrivePage env net now localPages dp s with
      | .error es => .error es
      | .ok s1 => downloadPassLoop env net now localPages dps s1

/-- First-sync path of `syncPageContents`: upload every local page content. -/
def uploadAllContentsLoop (net : Net) : List Page → Run → Except (String × Run) Run
  | [], s => .ok s
  | p :: ps, s =>
      match driveUploadPageContent net p.id (serializePageContent p) s.w with
      | .error (e, w) => .error (e, ⟨w, s.r⟩)
      | .ok w =>
          uploadAllContentsLoop net ps ⟨w, { s.r with pagesUploaded := s.r.pagesUploaded + 1 }⟩

/-- The metadata-consistency repair of `syncPageContents` (entered when the
number of `pages.json` entries differs from the number of actual content
files): rebuild a metadata entry for every content file missing from the
index, then rewrite `pages.json`. -/
def repairMetadata (env : Env) (net : Net) (now : Nat) (pages : List PageMetadata)
    (actualPageIds : List String) (w : World) :
    Except (String × World) (List PageMetadata × World) :=
  if pages.length ≠ actualPageIds.length then
    let missingInMetadata :=
      actualPageIds.filter (fun pid => ¬ pages.any (fun p => p.id = pid))
    let (allFolders, w) := dbGetAllFolders w
    let rootFolder := allFolders.find? (fun f => f.parentId = none)
    let fallbackId := match allFolders with | [] => "unknown" | a :: _ => a.id
    let defaultFolderId := match rootFolder with
      | some rf => if rf.id = "" then fallbackId else rf.id
      | none => fallbackId
    let pw := rebuildMetadataLoop env net now defaultFolderId missingInMetadata pages w
    match driveUploadPagesJson net { version := "2.0", lastModified := now, pages := pw.1 } pw.2 with
    | .error ew => .error ew
    | .ok w => .ok (pw.1, w)
  else .ok (pages, w)

def syncPageContents (env : Env) (net : Net) (now : Nat) (s : Run) :
    Except (String × Run) Run :=
  let (localPages, w) := dbGetAllPages s.w
  let (mj, w) := driveDownloadPagesJson net w
  match mj with
  | none => uploadAllContentsLoop net localPages ⟨w, s.r⟩
  | some raw =>
      match deserializePages raw with
      | .error e => .error (e, ⟨w, s.r⟩)
      | .ok file =>
          match driveListAllPageFiles net w with
          | .error (e, w) => .error (e, ⟨w, s.r⟩)
          | .ok (actualFiles, w) =>
              let actualPageIds := jsSet (actualFiles.map stripPageFileName)
              match repairMetadata env net now file.pages actualPageIds w with
              | .error (e, w) => .error (e, ⟨w, s.r⟩)
              | .ok (drivePages, w) =>
                  match driveListAllPageFiles net w with
                  | .error (e, w) => .error (e, ⟨w, s.r⟩)
                  | .ok (files2, w) =>
                      let fileIds :=
                        jsSet ((files2.map stripPageFileName).filter (fun i => i ≠ ""))
                      match uploadPassLoop env net now drivePages fileIds localPages ⟨w, s.r⟩ with
                      | .error es => .error es
                      | .ok s1 => downloadPassLoop env net now localPages drivePages s1

-- ==================== performSync ====================

/-- The reentrancy flag of the orchestrator instance. -/
structure SyncMgr where
  isSyncing : Bool
deriving DecidableEq, Repr

/-- The five ordered stages inside the `try` block of `performSync`. -/
def runStages (env : Env) (net : Net) (now : Nat) (s : Run) : Except (String × Run) Run :=
  match syncFolders net now s with
  | .error es => .error es
  | .ok s =>
      match syncDeletedFolders net s with
      | .error es => .error es
      | .ok s =>
          match syncPages env net now s with
          | .error es => .error es
          | .ok s =>
              match syncDeletedPages net s with
              | .error es => .error es
              | .ok s => syncPageContents env net now s

/-- `performSync`: the reentrancy guard throws to the caller; everything else
is wrapped in try/catch/finally, so a guard-passing invocation always
returns a result and clears `isSyncing`.  `net.initFails` models a failure of
`initialize` (creating/locating the Drive application folders). -/
def performSync (env : Env) (net : Net) (now : Nat) (mgr : SyncMgr) (w : World) :
    Except (String × SyncMgr × World) (SyncMgr × World × SyncResult) :=
  if mgr.isSyncing then .error ("Sync already in progress", mgr, w)
  else if net.initFails then
    let r : SyncResult :=
      { SyncResult.init with
        success := false,
        errors := ["Failed to create app folder"] }
    .ok (⟨false⟩, w, r)
  else
    match runStages env net now ⟨w, SyncResult.init⟩ with
    | .ok s => .ok (⟨false⟩, s.w, { s.r with success := true })
    | .error (e, s) =>
        .ok (⟨false⟩, s.w, { s.r with success := false, errors := s.r.errors ++ [e] })

-- ==================== Concrete data for witnesses and counterexamples ==========

/-- Identity digest environment (available digest), time formatted as its
decimal string. -/
def exEnv : Env := ⟨fun s => s, true, fun n => toString n⟩

def exFolder : Folder :=
  { id := "f1", name := "Root", parentId := none, ord := 0, createdAt := 1, updatedAt := 10 }

/-- Result projection of a completed `performSync`. -/
def runResult (x : Except (String × SyncMgr × World) (SyncMgr × World × SyncResult)) :
    Option SyncResult :=
  match x with
  | .ok y => some y.2.2
  | .error _ => none

/-- World projection of a completed `performSync`. -/
def runWorld (x : Except (String × SyncMgr × World) (SyncMgr × World × SyncResult)) :
    Option World :=
  match x with
  | .ok y => some y.2.1
  | .error _ => none

def exRemoteFolder : Folder :=
  { id := "f9", name := "RemoteOnly", parentId := none, ord := 0, createdAt := 1, updatedAt := 99 }

/-- A world whose remote `folders.json` exists and holds a folder unknown
locally. -/
def exWorldC2 : World :=
  { loc := { folders := [exFolder], pages := [], deletedFolders := [], deletedPages := [],
             upgraded := true },
    drive := { foldersJson := some ⟨"2.0", 5, [exFolder, exRemoteFolder]⟩,
               deletedFoldersJson := none, pagesJson := some ⟨"2.0", 5, []⟩,
               deletedPagesJson := none, pageFiles := [] },
    log := [] }

def exMetaQ : PageMetadata :=
  { id := "q", name := "Q", folderId := "f1", createdAt := 1, updatedAt := 50,
    contentHash := "qq", contentSize := 2 }

def exMetaR : PageMetadata :=
  { id := "r", name := "R", folderId := "f1", createdAt := 1, updatedAt := 50,
    contentHash := "rr", contentSize := 2 }

/-- A world with two remote-only pages whose content files exist. -/
def exWorldC3 : World :=
  { loc := { folders := [exFolder], pages := [], deletedFolders := [], deletedPages := [],
             upgraded := true },
    drive := { foldersJson := some ⟨"2.0", 5, [exFolder]⟩,
               deletedFoldersJson := none,
               pagesJson := some ⟨"2.0", 5, [exMetaR, exMetaQ]⟩,
               deletedPagesJson := none,
               pageFiles := [("page-r.md", "rr"), ("page-q.md", "qq")] },
    log := [] }

def exPageA : Page := { id := "p", folderId := "f1", name := "N", content := "C1",
                        createdAt := 1, updatedAt := 100 }

def exMetaB : PageMetadata := { id := "p", name := "NB", folderId := "f1", createdAt := 1,
                                updatedAt := 200, contentHash := "C2", contentSize := 2 }

def exWorldC1 : World :=
  { loc := { folders := [exFolder], pages := [exPageA], deletedFolders := [],
             deletedPages := [], upgraded := true },
    drive := { foldersJson := some ⟨"2.0", 5, [exFolder]⟩, deletedFoldersJson := none,
               pagesJson := some ⟨"2.0", 5, [exMetaB]⟩, deletedPagesJson := none,
               pageFiles := [("page-p.md", "C2")] },
    log := [] }

/-- The metadata row that a prior `serializePages` of the current local pages
would have produced (digest available). -/
def mirrorMetadata (env : Env) (p : Page) : PageMetadata :=
  { id := p.id, name := p.name, folderId := p.folderId, createdAt := p.createdAt,
    updatedAt := p.updatedAt, contentHash := env.digest p.content,
    contentSize := p.content.utf8ByteSize }

/-- A world in which the remote store mirrors the local store exactly: the
folder index holds the local folder rows, the page index holds accurate
metadata (correct content hashes) for exactly the local pages, the content
files hold exactly the local page contents, both tombstone indexes exist and
no tombstone (remote or locally recorded) matches a live local row, and ids
are well-behaved (non-empty, recovered by the file-name convention, no
duplicates). -/
structure Synced (env : Env) (w : World) : Prop where
  digestOk : env.digestOk = true
  upgraded : w.loc.upgraded = true
  folderIdsNodup : (w.loc.folders.map Folder.id).Nodup
  pageIdsNodup : (w.loc.pages.map Page.id).Nodup
  foldersJson : ∃ L, w.drive.foldersJson = some ⟨"2.0", L, w.loc.folders⟩
  pagesJson : ∃ L, w.drive.pagesJson = some ⟨"2.0", L, w.loc.pages.map (mirrorMetadata env)⟩
  pageFiles : w.drive.pageFiles = w.loc.pages.map (fun p => (getPageFileName p.id, p.content))
  deletedFoldersJson : ∃ dfs, w.drive.deletedFoldersJson = some ⟨"2.0", dfs⟩ ∧
    ∀ d ∈ dfs, w.loc.folders.find? (fun f => f.id = d.folderId) = none
  deletedPagesJson : ∃ dps, w.drive.deletedPagesJson = some ⟨"2.0", dps⟩ ∧
    ∀ d ∈ dps, w.loc.pages.find? (fun p => p.id = d.pageId) = none
  idsClean : ∀ p ∈ w.loc.pages, stripPageFileName (getPageFileName p.id) = p.id ∧ p.id ≠ ""
  localDeletedFoldersClean : ∀ d ∈ w.loc.deletedFolders,
    w.loc.folders.find? (fun f => f.id = d.folderId) = none
  localDeletedPagesClean : ∀ d ∈ w.loc.deletedPages,
    w.loc.pages.find? (fun p => p.id = d.pageId) = none

def exStalePage : Page :=
  { id := "p", folderId := "f", name := "N", content := "C",
    createdAt := 1, updatedAt := 3, editorState := none }

/-- A `pages.json` entry for `exStalePage` whose recorded content hash does
not match the page's content (as `recalculateAllHashes` can leave behind),
but whose timestamp agrees. -/
def exStaleMeta : PageMetadata :=
  { id := "p", name := "N", folderId := "f", createdAt := 1, updatedAt := 3,
    contentHash := "stale", contentSize := 1 }

/-- A fixed point of `performSync`: a run from here succeeds and leaves both
stores bit-for-bit unchanged, yet every run uploads the content of `p` and
rewrites the local row, because the recorded hash never matches. -/
def exStale : World :=
  { loc := { folders := [], pages := [exStalePage],
             deletedFolders := [], deletedPages := [], upgraded := true },
    drive := { foldersJson := some ⟨"2.0", 2, []⟩,
               deletedFoldersJson := some ⟨"2.0", []⟩,
               pagesJson := some ⟨"2.0", 2, [exStaleMeta]⟩,
               deletedPagesJson := none,
               pageFiles := [("page-p.md", "C")] },
    log := [] }

def exSyncedFolder : Folder :=
  { id := "f1", name := "Root", parentId := none, ord := 0, createdAt := 1, updatedAt := 1 }

def exSyncedPage : Page :=
  { id := "p1", folderId := "f1", name := "Hello", content := "hello",
    createdAt := 1, updatedAt := 2, editorState := none }

/-- A concrete consistent world: the remote mirrors the local store with
accurate hashes. -/
def exSyncedWorld : World :=
  { loc := { folders := [exSyncedFolder], pages := [exSyncedPage],
             deletedFolders := [], deletedPages := [], upgraded := true },
    drive := { foldersJson := some ⟨"2.0", 7, [exSyncedFolder]⟩,
               deletedFoldersJson := some ⟨"2.0", []⟩,
               pagesJson := some ⟨"2.0", 7, [mirrorMetadata exEnv exSyncedPage]⟩,
               deletedPagesJson := some ⟨"2.0", []⟩,
               pageFiles := [("page-p1.md", "hello")] },
    log := [] }

/-- The world left behind by one `performSync` run from `exSyncedWorld`. -/
def exSyncedW1 : World :=
  (runWorld (performSync exEnv Net.allOk 7 ⟨false⟩ exSyncedWorld)).getD exSyncedWorld

-- ==================== Shared helper lemmas ====================

/-- A JS `Map` built from entries with pairwise distinct keys maps the key of a
member back to that member. -/
theorem jsMapGet_eq_some_self {α : Type} (key : α → String) :
    ∀ (xs : List α), (xs.map key).Nodup → ∀ {x : α}, x ∈ xs →
      jsMapGet key xs (key x) = some x := by
  intro xs
  induction xs with
  | nil => intro _ x hx; cases hx
  | cons y ys ih =>
      intro hnd x hx
      simp only [List.map_cons, List.nodup_cons] at hnd
      rcases List.mem_cons.mp hx with rfl | hmem
      · unfold jsMapGet
        have hf : ys.filter (fun z => key z = key x) = [] := by
          refine List.filter_eq_nil_iff.mpr ?_
          intro z hz hkz
          exact hnd.1 (by
            have : key z = key x := by simpa using hkz
            rw [← this]; exact List.mem_map_of_mem key hz)
        simp [List.filter_cons, hf]
      · have hne : ¬ (key y = key x) := by
          intro h
          exact hnd.1 (h ▸ List.mem_map_of_mem key hmem)
        have := ih hnd.2 hmem
        unfold jsMapGet at this ⊢
        simpa [List.filter_cons, hne] using this

/-- Convenience form of `jsMapGet_eq_some_self` for a mapped list: looking up
the key of `f x` where the key of `f x` is the key of `x`. -/
theorem jsMapGet_map_eq_some {α β : Type} (key : β → String) (keyA : α → String)
    (f : α → β) (h : ∀ a, key (f a) = keyA a) (xs : List α)
    (hnd : (xs.map keyA).Nodup) {x : α} (hx : x ∈ xs) :
    jsMapGet key (xs.map f) (keyA x) = some (f x) := by
  have hnd2 : ((xs.map f).map key).Nodup := by
    rw [List.map_map]
    have : (key ∘ f) = keyA := funext h
    rwa [this]
  have := jsMapGet_eq_some_self key (xs.map f) hnd2 (List.mem_map_of_mem f hx)
  rwa [h x] at this

/-- A nonempty string has a nonempty character list. -/
theorem toList_ne_nil_of_ne_empty {s : String} (h : s ≠ "") : s.toList ≠ [] := by
  intro hnil
  apply h
  cases s with
  | mk data => simpa [String.toList] using congrArg String.mk hnil

-- ==================== C9: determinism of the content hash ====================

/-- Claim C9 as stated — `calculateContentHash` returns the same digest on any
two invocations with the same content — is refuted by the fallback path: when
the digest primitive is unavailable the result embeds `Date.now()`, so
invocations at times 0 and 1 on the empty string differ. -/
theorem calculateContentHash_counterexample :
    ¬ (∀ (env : Env) (now₁ now₂ : Nat) (content : String),
        calculateContentHash env now₁ content = calculateContentHash env now₂ content) := by
  intro h
  have h01 := h ⟨fun _ => "", false, fun _ => ""⟩ 0 1 ""
  rw [calculateContentHash, calculateContentHash] at h01
  simp only [Bool.false_eq_true, if_false] at h01
  exact absurd h01 (by decide)

/-- Claim C9, amended: whenever the underlying digest primitive is available
(`digestOk`), `calculateContentHash` is a pure function of the content alone —
its result does not depend on the invocation time, so any two invocations on
the same content agree. -/
theorem calculateContentHash_deterministic (env : Env) (hok : env.digestOk = true)
    (now₁ now₂ : Nat) (content : String) :
    calculateContentHash env now₁ content = calculateContentHash env now₂ content := by
  rw [calculateContentHash, calculateContentHash, hok]
  simp

/-- Witness for `calculateContentHash_deterministic` at a concrete environment
and content. -/
theorem calculateContentHash_deterministic_witness :
    calculateContentHash ⟨fun s => s, true, fun _ => ""⟩ 3 "hello"
      = calculateContentHash ⟨fun s => s, true, fun _ => ""⟩ 7 "hello" :=
  calculateContentHash_deterministic ⟨fun s => s, true, fun _ => ""⟩ rfl 3 7 "hello"

-- ==================== C10: page file name round trip ====================

/-- List-level round trip for the `/^page-(.+)\.md$/` match. -/
theorem parsePageFileNameL_roundtrip (mid : List Char) (hne : mid ≠ [])
    (hdot : mid.all jsDotChar = true) :
    parsePageFileNameL ("page-".toList ++ (mid ++ ".md".toList)) = some mid := by
  have hlen1 : 1 ≤ mid.length := by
    cases mid with
    | nil => exact absurd rfl hne
    | cons c cs => simp
  have hpre : "page-".toList.isPrefixOf ("page-".toList ++ (mid ++ ".md".toList)) = true := by
    rw [List.isPrefixOf_iff_prefix]
    exact List.prefix_append _ _
  have hsuf : ".md".toList.isSuffixOf ("page-".toList ++ (mid ++ ".md".toList)) = true := by
    rw [List.isSuffixOf_iff_suffix]
    rw [← List.append_assoc]
    exact List.suffix_append _ _
  have h5 : ("page-".toList).length = 5 := rfl
  have h3 : (".md".toList).length = 3 := rfl
  have hlentot : ("page-".toList ++ (mid ++ ".md".toList)).length = mid.length + 8 := by
    simp only [List.length_append, h5, h3]
    omega
  have hlen9 : 9 ≤ ("page-".toList ++ (mid ++ ".md".toList)).length := by
    rw [hlentot]
    omega
  have hdrop : ("page-".toList ++ (mid ++ ".md".toList)).drop 5 = mid ++ ".md".toList := by
    have h5 : ("page-".toList).length = 5 := rfl
    rw [← h5]
    exact List.drop_left _ _
  have htake : (mid ++ ".md".toList).take
      (("page-".toList ++ (mid ++ ".md".toList)).length - 8) = mid := by
    rw [hlentot]
    have : mid.length + 8 - 8 = mid.length := by omega
    rw [this]
    exact List.take_left _ _
  unfold parsePageFileNameL
  rw [if_pos ⟨hpre, hsuf, hlen9⟩]
  simp only [hdrop, htake, hdot, if_pos]

/-- Claim C10 as stated is refuted by a page id containing a carriage return:
`"a\rb"` is nonempty and contains no newline character, yet JS `.` matches no
line terminator, so the regex fails and `parsePageFileName` returns `null`
rather than the id. -/
theorem parsePageFileName_counterexample :
    "a\rb" ≠ "" ∧ ('\n' ∉ "a\rb".toList) ∧
    parsePageFileName (getPageFileName "a\rb") = none := by decide

/-- Claim C10, amended: for every nonempty page id containing no JS line
terminator (newline, carriage return, U+2028, U+2029), parsing the generated
remote file name recovers the id. -/
theorem parsePageFileName_roundtrip (pageId : String) (hne : pageId ≠ "")
    (hdot : pageId.toList.all jsDotChar = true) :
    parsePageFileName (getPageFileName pageId) = some pageId := by
  unfold parsePageFileName
  have h1 : (getPageFileName pageId).toList
      = "page-".toList ++ (pageId.toList ++ ".md".toList) := by
    simp [getPageFileName]
  rw [h1, parsePageFileNameL_roundtrip pageId.toList (toList_ne_nil_of_ne_empty hne) hdot]
  rfl

/-- Witness for `parsePageFileName_roundtrip` at a concrete id. -/
theorem parsePageFileName_roundtrip_witness :
    parsePageFileName (getPageFileName "abc123") = some "abc123" :=
  parsePageFileName_roundtrip "abc123" (by decide) (by decide)

-- ==================== C8: reentrancy guard ====================

/-- Claim C8: a `performSync` invocation while `isSyncing` is true is rejected
immediately with the sync-already-in-progress error and leaves the whole state
(both stores and the operation log) untouched; and every guard-passing
invocation returns normally — whether the run succeeded or failed — with
`isSyncing` false again. -/
theorem performSync_reentrancy_guard (env : Env) (net : Net) (now : Nat) (w : World) :
    (∀ mgr : SyncMgr, mgr.isSyncing = true →
        performSync env net now mgr w = .error ("Sync already in progress", mgr, w)) ∧
    (∀ mgr : SyncMgr, mgr.isSyncing = false →
        ∃ w' r, performSync env net now mgr w = .ok (⟨false⟩, w', r)) := by
  constructor
  · intro mgr h
    unfold performSync
    rw [h]
    simp
  · intro mgr h
    unfold performSync
    rw [h]
    simp only [Bool.false_eq_true, if_false]
    cases hinit : net.initFails with
    | true =>
        simp only [if_true]
        exact ⟨w, _, rfl⟩
    | false =>
        simp only [Bool.false_eq_true, if_false]
        cases hr : runStages env net now ⟨w, SyncResult.init⟩ with
        | ok s => exact ⟨s.w, _, rfl⟩
        | error es => exact ⟨es.2.w, _, rfl⟩

/-- Witness for `performSync_reentrancy_guard`: the guard rejects on a busy
manager, and a free manager ends the run with the flag cleared, at a concrete
empty world. -/
theorem performSync_reentrancy_guard_witness :
    (performSync ⟨fun s => s, true, fun _ => ""⟩ Net.allOk 0 ⟨true⟩
        ⟨⟨[], [], [], [], true⟩, ⟨none, none, none, none, []⟩, []⟩
      = .error ("Sync already in progress", ⟨true⟩,
          ⟨⟨[], [], [], [], true⟩, ⟨none, none, none, none, []⟩, []⟩)) ∧
    (∃ w' r, performSync ⟨fun s => s, true, fun _ => ""⟩ Net.allOk 0 ⟨false⟩
        ⟨⟨[], [], [], [], true⟩, ⟨none, none, none, none, []⟩, []⟩
      = .ok (⟨false⟩, w', r)) :=
  ⟨(performSync_reentrancy_guard _ _ _ _).1 ⟨true⟩ rfl,
   (performSync_reentrancy_guard _ _ _ _).2 ⟨false⟩ rfl⟩

-- ==================== Stage lemmas under a failed app-folder listing ==========

/-- When the application-folder listing fails, `downloadFoldersJson` catches
the error and returns `null`, so `syncFolders` takes the first-sync seed path
and overwrites the remote `folders.json` with the local snapshot. -/
theorem syncFolders_listAppFails (net : Net) (now : Nat) (s : Run)
    (hl : net.listAppFails = true) (hup : net.uploadFails = false) :
    syncFolders net now s = .ok
      ⟨{ s.w with
         drive := { s.w.drive with
                    foldersJson := some (serializeFolders now s.w.loc.folders) },
         log := s.w.log ++ [Op.dbGetAllFolders, Op.driveListApp,
                            Op.drivePutIndex "folders.json"] },
       { s.r with foldersUploaded := s.w.loc.folders.length }⟩ := by
  unfold syncFolders dbGetAllFolders driveDownloadFoldersJson driveUploadFoldersJson World.pushOp
  simp [hl, hup]

/-- When the app-folder listing fails, `syncDeletedFolders` sees no remote
tombstone file; it touches nothing except possibly uploading the local
tombstones, and the result record is unchanged. -/
theorem syncDeletedFolders_listAppFails (net : Net) (s : Run)
    (hl : net.listAppFails = true) (hup : net.uploadFails = false)
    (hupg : s.w.loc.upgraded = true) :
    ∃ w', syncDeletedFolders net s = .ok ⟨w', s.r⟩ ∧
      w'.loc = s.w.loc ∧
      w'.drive.foldersJson = s.w.drive.foldersJson ∧
      w'.drive.pagesJson = s.w.drive.pagesJson ∧
      w'.drive.deletedPagesJson = s.w.drive.deletedPagesJson ∧
      w'.drive.pageFiles = s.w.drive.pageFiles := by
  unfold syncDeletedFolders dbGetAllDeletedFolders driveDownloadDeletedFoldersJson
    driveUploadDeletedFoldersJson World.pushOp
  simp only [hl, hupg, if_true]
  by_cases hlen : 0 < s.w.loc.deletedFolders.length
  · simp [hl, hup, hlen]
  · simp [hl, hup, hlen]

/-- When the app-folder listing fails, `syncPages` takes the seed path and
rewrites the remote `pages.json` from the local snapshot. -/
theorem syncPages_listAppFails (env : Env) (net : Net) (now : Nat) (s : Run)
    (hl : net.listAppFails = true) (hup : net.uploadFails = false) :
    syncPages env net now s = .ok
      ⟨{ s.w with
         drive := { s.w.drive with
                    pagesJson := some (serializePages env now s.w.loc.pages) },
         log := s.w.log ++ [Op.dbGetAllPages, Op.driveListApp,
                            Op.drivePutIndex "pages.json"] },
       { s.r with pagesUploaded := s.w.loc.pages.length }⟩ := by
  unfold syncPages dbGetAllPages driveDownloadPagesJson driveUploadPagesJson World.pushOp
  simp [hl, hup]

/-- When the app-folder listing fails, `syncDeletedPages` behaves like
`syncDeletedFolders`: tombstone loop never runs, result unchanged. -/
theorem syncDeletedPages_listAppFails (net : Net) (s : Run)
    (hl : net.listAppFails = true) (hup : net.uploadFails = false)
    (hupg : s.w.loc.upgraded = true) :
    ∃ w', syncDeletedPages net s = .ok ⟨w', s.r⟩ ∧
      w'.loc = s.w.loc ∧
      w'.drive.foldersJson = s.w.drive.foldersJson ∧
      w'.drive.pagesJson = s.w.drive.pagesJson ∧
      w'.drive.deletedFoldersJson = s.w.drive.deletedFoldersJson ∧
      w'.drive.pageFiles = s.w.drive.pageFiles := by
  unfold syncDeletedPages dbGetAllDeletedPages driveDownloadDeletedPagesJson
    driveUploadDeletedPagesJson World.pushOp
  simp only [hl, hupg, if_true]
  by_cases hlen : 0 < s.w.loc.deletedPages.length
  · simp [hl, hup, hlen]
  · simp [hl, hup, hlen]

/-- The first-sync content upload loop succeeds when uploads succeed, counts
every page, and mutates nothing but the `pages/` files and the log. -/
theorem uploadAllContentsLoop_ok (net : Net) (hup : net.uploadFails = false) :
    ∀ (ps : List Page) (s : Run),
      ∃ w', uploadAllContentsLoop net ps s =
          .ok ⟨w', { s.r with pagesUploaded := s.r.pagesUploaded + ps.length }⟩ ∧
        w'.loc = s.w.loc ∧
        w'.drive.foldersJson = s.w.drive.foldersJson ∧
        w'.drive.pagesJson = s.w.drive.pagesJson ∧
        w'.drive.deletedFoldersJson = s.w.drive.deletedFoldersJson ∧
        w'.drive.deletedPagesJson = s.w.drive.deletedPagesJson := by
  intro ps
  induction ps with
  | nil =>
      intro s
      refine ⟨s.w, ?_, rfl, rfl, rfl, rfl, rfl⟩
      simp [uploadAllContentsLoop]
  | cons p ps ih =>
      intro s
      unfold uploadAllContentsLoop driveUploadPageContent World.pushOp
      simp only [hup, Bool.false_eq_true, if_false]
      obtain ⟨w', hrun, hloc, hfj, hpj, hdfj, hdpj⟩ := ih
        ⟨⟨s.w.loc,
          ⟨s.w.drive.foldersJson, s.w.drive.deletedFoldersJson, s.w.drive.pagesJson,
           s.w.drive.deletedPagesJson,
           putPageFile ("page-" ++ p.id ++ ".md") (serializePageContent p) s.w.drive.pageFiles⟩,
          s.w.log ++ [Op.drivePutPage p.id]⟩,
         { s.r with pagesUploaded := s.r.pagesUploaded + 1 }⟩
      refine ⟨w', ?_, hloc, hfj, hpj, hdfj, hdpj⟩
      rw [hrun]
      have harith : s.r.pagesUploaded + 1 + ps.length = s.r.pagesUploaded + (p :: ps).length := by
        simp
        omega
      simp [harith]

/-- When the app-folder listing fails, `syncPageContents` sees no remote
`pages.json` and uploads every local page content. -/
theorem syncPageContents_listAppFails (env : Env) (net : Net) (now : Nat) (s : Run)
    (hl : net.listAppFails = true) (hup : net.uploadFails = false) :
    ∃ w', syncPageContents env net now s =
        .ok ⟨w', { s.r with pagesUploaded := s.r.pagesUploaded + s.w.loc.pages.length }⟩ ∧
      w'.loc = s.w.loc ∧
      w'.drive.foldersJson = s.w.drive.foldersJson ∧
      w'.drive.pagesJson = s.w.drive.pagesJson ∧
      w'.drive.deletedFoldersJson = s.w.drive.deletedFoldersJson ∧
      w'.drive.deletedPagesJson = s.w.drive.deletedPagesJson := by
  unfold syncPageContents dbGetAllPages driveDownloadPagesJson World.pushOp
  simp only [hl, if_true]
  exact uploadAllContentsLoop_ok net hup s.w.loc.pages ⟨_, s.r⟩

-- ==================== C2: failed index read vs absent index ====================

/-- Claim C2 as stated is refuted: with `folders.json` present remotely but the
app-folder listing failing (network/auth failure of the read), the run does
not abort with a `RemoteUnavailable` error — it completes with
`success = true` and an empty `errors` list, and treats the failed read
exactly like an absent index file: it takes the first-sync seed path and
overwrites the remote `folders.json` with the local snapshot, silently
dropping the remote-only folder. -/
theorem remote_read_failure_counterexample :
    runResult (performSync exEnv { Net.allOk with listAppFails := true } 999 ⟨false⟩ exWorldC2) =
      some { success := true, foldersUploaded := 1, foldersDownloaded := 0, foldersDeleted := 0,
             pagesUploaded := 0, pagesDownloaded := 0, pagesDeleted := 0, conflicts := 0,
             errors := [] } ∧
    (runWorld (performSync exEnv { Net.allOk with listAppFails := true } 999 ⟨false⟩
        exWorldC2)).map (fun w => w.drive.foldersJson) =
      some (some (serializeFolders 999 [exFolder])) := by decide

/-- Claim C2, amended: a network/auth failure while reading the index files is
caught inside the adapter and surfaced as `null`, indistinguishable from an
absent index file; the orchestrator therefore proceeds on the first-sync seed
path — the run reports `success = true` with no errors and overwrites the
remote `folders.json` and `pages.json` with the local snapshots — instead of
aborting with a `RemoteUnavailable` failure. -/
theorem remote_read_failure_treated_as_absent (env : Env) (net : Net) (now : Nat) (w : World)
    (hl : net.listAppFails = true) (hinit : net.initFails = false)
    (hup : net.uploadFails = false) (hupg : w.loc.upgraded = true) :
    ∃ w' r, performSync env net now ⟨false⟩ w = .ok (⟨false⟩, w', r) ∧
      r.success = true ∧ r.errors = [] ∧
      w'.drive.foldersJson = some (serializeFolders now w.loc.folders) ∧
      w'.drive.pagesJson = some (serializePages env now w.loc.pages) := by
  have hA := syncFolders_listAppFails net now ⟨w, SyncResult.init⟩ hl hup
  obtain ⟨wB, hBrun, hBloc, hBfj, hBpj, hBdpj, hBpf⟩ :=
    syncDeletedFolders_listAppFails net
      ⟨{ w with
         drive := { w.drive with foldersJson := some (serializeFolders now w.loc.folders) },
         log := w.log ++ [Op.dbGetAllFolders, Op.driveListApp, Op.drivePutIndex "folders.json"] },
       { SyncResult.init with foldersUploaded := w.loc.folders.length }⟩ hl hup hupg
  have hC := syncPages_listAppFails env net now
    ⟨wB, { SyncResult.init with foldersUploaded := w.loc.folders.length }⟩ hl hup
  obtain ⟨wD, hDrun, hDloc, hDfj, hDpj, hDdfj, hDpf⟩ :=
    syncDeletedPages_listAppFails net
      ⟨{ wB with
         drive := { wB.drive with pagesJson := some (serializePages env now wB.loc.pages) },
         log := wB.log ++ [Op.dbGetAllPages, Op.driveListApp, Op.drivePutIndex "pages.json"] },
       { SyncResult.init with foldersUploaded := w.loc.folders.length,
                              pagesUploaded := wB.loc.pages.length }⟩ hl hup
      (by show wB.loc.upgraded = true; rw [hBloc]; exact hupg)
  obtain ⟨wE, hErun, hEloc, hEfj, hEpj, hEdfj, hEdpj⟩ :=
    syncPageContents_listAppFails env net now
      ⟨wD, { SyncResult.init with foldersUploaded := w.loc.folders.length,
                                  pagesUploaded := wB.loc.pages.length }⟩ hl hup
  refine ⟨wE,
    { SyncResult.init with
      success := true,
      foldersUploaded := w.loc.folders.length,
      pagesUploaded := wB.loc.pages.length + wD.loc.pages.length }, ?_, rfl, rfl, ?_, ?_⟩
  · unfold performSync runStages
    simp only [show (SyncMgr.mk false).isSyncing = false from rfl, Bool.false_eq_true,
      if_false, hinit]
    rw [hA]
    simp only []
    rw [hBrun]
    simp only []
    rw [hC]
    simp only []
    rw [hDrun]
    simp only []
    rw [hErun]
  · rw [hEfj, hDfj]
    show wB.drive.foldersJson = _
    rw [hBfj]
  · rw [hEpj, hDpj]
    show some (serializePages env now wB.loc.pages) = _
    rw [hBloc]

/-- Witness for `remote_read_failure_treated_as_absent` at the concrete world
of the counterexample. -/
theorem remote_read_failure_treated_as_absent_witness :
    ∃ w' r, performSync exEnv { Net.allOk with listAppFails := true } 999 ⟨false⟩ exWorldC2
        = .ok (⟨false⟩, w', r) ∧
      r.success = true ∧ r.errors = [] ∧
      w'.drive.foldersJson = some (serializeFolders 999 exWorldC2.loc.folders) ∧
      w'.drive.pagesJson = some (serializePages exEnv 999 exWorldC2.loc.pages) :=
  remote_read_failure_treated_as_absent exEnv { Net.allOk with listAppFails := true } 999
    exWorldC2 rfl rfl rfl rfl

-- ==================== C3: per-page failure handling in stage E ==========

/-- Claim C3 as stated is refuted: with the content GET of `page-r.md` failing,
the run completes with an **empty** `errors` list — no message describing the
failed download of page `r` is appended — while the remaining page `q` is
still downloaded and created locally. -/
theorem page_failure_counterexample :
    runResult (performSync exEnv { Net.allOk with downloadFails := ["page-r.md"] } 999 ⟨false⟩
        exWorldC3) =
      some { success := true, foldersUploaded := 0, foldersDownloaded := 0, foldersDeleted := 0,
             pagesUploaded := 0, pagesDownloaded := 1, pagesDeleted := 0, conflicts := 0,
             errors := [] } ∧
    (runWorld (performSync exEnv { Net.allOk with downloadFails := ["page-r.md"] } 999 ⟨false⟩
        exWorldC3)).map (fun w => w.loc.pages.map Page.id) = some ["q"] := by decide

/-- Claim C3, amended: within the page-content stage an individual page's
content-download failure is caught inside the adapter (indistinguishable from
an absent file): that page is skipped silently — the stores, the result
counters and in particular the `errors` list are left untouched — and
processing continues with the remaining pages; an individual page's
content-upload failure, however, is not caught per page: it aborts the upload
pass (and hence the stage and the run) with the error message. -/
theorem page_failure_handling (env : Env) (net : Net) (now : Nat) :
    (∀ (lp : List Page) (dp : PageMetadata) (s : Run),
        net.listPagesFails = false →
        net.downloadFails.contains ("page-" ++ dp.id ++ ".md") = true →
        ∃ w', processDrivePage env net now lp dp s = .ok ⟨w', s.r⟩ ∧
          w'.loc = s.w.loc ∧ w'.drive = s.w.drive) ∧
    (∀ (metas : List PageMetadata) (fileIds : List String) (p : Page) (ps : List Page) (s : Run),
        net.uploadFails = true →
        needUpload env now metas fileIds p = true →
        uploadPassLoop env net now metas fileIds (p :: ps) s =
          .error ("Failed to upload page-" ++ p.id ++ ".md",
                  ⟨s.w.pushOp (.drivePutPage p.id), s.r⟩)) := by
  constructor
  · intro lp dp s hlp hfail
    unfold processDrivePage driveDownloadPageContent World.pushOp
    simp only [hlp, Bool.false_eq_true, if_false]
    cases hm : jsMapGet Page.id lp dp.id with
    | none =>
        cases hf : lookupPageFile ("page-" ++ dp.id ++ ".md") s.w.drive.pageFiles with
        | none => exact ⟨_, rfl, rfl, rfl⟩
        | some content =>
            simp only [hfail, if_true]
            exact ⟨_, rfl, rfl, rfl⟩
    | some localPage =>
        simp only []
        by_cases hh : calculateContentHash env now localPage.content ≠ dp.contentHash
        · rw [if_pos hh]
          by_cases hle : localPage.updatedAt ≤ dp.updatedAt
          · rw [if_pos hle]
            cases hf : lookupPageFile ("page-" ++ dp.id ++ ".md") s.w.drive.pageFiles with
            | none => exact ⟨_, rfl, rfl, rfl⟩
            | some content =>
                simp only [hfail, if_true]
                exact ⟨_, rfl, rfl, rfl⟩
          · rw [if_neg hle]
            exact ⟨s.w, rfl, rfl, rfl⟩
        · rw [if_neg hh]
          exact ⟨s.w, rfl, rfl, rfl⟩
  · intro metas fileIds p ps s hup hneed
    unfold uploadPassLoop driveUploadPageContent
    simp only [hneed, if_true, hup]

/-- Witness for `page_failure_handling`: the download half applied at the
counterexample world's failing page, and the upload half at a singleton
upload. -/
theorem page_failure_handling_witness :
    (∃ w', processDrivePage exEnv { Net.allOk with downloadFails := ["page-r.md"] } 999 []
        exMetaR ⟨exWorldC3, SyncResult.init⟩ = .ok ⟨w', SyncResult.init⟩ ∧
      w'.loc = exWorldC3.loc ∧ w'.drive = exWorldC3.drive) ∧
    (uploadPassLoop exEnv { Net.allOk with uploadFails := true } 999 [] []
        [⟨"p", "f1", "N", "x", 1, 100, none⟩] ⟨exWorldC3, SyncResult.init⟩ =
      .error ("Failed to upload page-p.md",
              ⟨exWorldC3.pushOp (.drivePutPage "p"), SyncResult.init⟩)) :=
  ⟨(page_failure_handling exEnv _ 999).1 [] exMetaR ⟨exWorldC3, SyncResult.init⟩ rfl rfl,
   (page_failure_handling exEnv _ 999).2 [] [] ⟨"p", "f1", "N", "x", 1, 100, none⟩ []
     ⟨exWorldC3, SyncResult.init⟩ rfl rfl⟩

-- ==================== C6: the upload-pass condition ====================

/-- Claim C6: in the upload pass, a local page's content is uploaded — one
`drivePutPage` request issued and `pagesUploaded` incremented — exactly when
(a) no remote metadata entry with its id exists, or (b) a metadata entry
exists but no remote content file with that id does, or (c) the local content
hash differs from the recorded `contentHash`; the appended log is precisely
one upload per qualifying page, and `pagesUploaded` grows by their number. -/
theorem uploadPass_uploads_iff (env : Env) (net : Net) (now : Nat)
    (metas : List PageMetadata) (fileIds : List String)
    (hup : net.uploadFails = false) :
    ∀ (ps : List Page) (s : Run),
      (∃ w', uploadPassLoop env net now metas fileIds ps s =
          .ok ⟨w', { s.r with pagesUploaded :=
                       s.r.pagesUploaded +
                         (ps.filter (needUpload env now metas fileIds)).length }⟩ ∧
        w'.log = s.w.log ++
          ((ps.filter (needUpload env now metas fileIds)).map (fun p => Op.drivePutPage p.id)) ∧
        w'.loc = s.w.loc) ∧
      (∀ p : Page,
        needUpload env now metas fileIds p = true ↔
          (jsMapGet PageMetadata.id metas p.id = none
           ∨ (∃ dp, jsMapGet PageMetadata.id metas p.id = some dp ∧
                fileIds.contains p.id = false)
           ∨ (∃ dp, jsMapGet PageMetadata.id metas p.id = some dp ∧
                calculateContentHash env now p.content ≠ dp.contentHash))) := by
  have hiff : ∀ p : Page,
      needUpload env now metas fileIds p = true ↔
        (jsMapGet PageMetadata.id metas p.id = none
         ∨ (∃ dp, jsMapGet PageMetadata.id metas p.id = some dp ∧
              fileIds.contains p.id = false)
         ∨ (∃ dp, jsMapGet PageMetadata.id metas p.id = some dp ∧
              calculateContentHash env now p.content ≠ dp.contentHash)) := by
    intro p
    unfold needUpload
    cases hm : jsMapGet PageMetadata.id metas p.id with
    | none => simp
    | some dp =>
        cases hc : fileIds.contains p.id with
        | false => simp [hc]
        | true =>
            simp only [hc, if_true, decide_eq_true_eq]
            constructor
            · intro h
              exact Or.inr (Or.inr ⟨dp, rfl, h⟩)
            · rintro (h | ⟨dp2, hdp2, hcontra⟩ | ⟨dp2, hdp2, hne⟩)
              · exact absurd h (by simp)
              · cases hdp2
                exact absurd hcontra (by simp [hc])
              · cases hdp2
                exact hne
  intro ps
  induction ps with
  | nil =>
      intro s
      refine ⟨⟨s.w, ?_, by simp, rfl⟩, hiff⟩
      simp [uploadPassLoop]
  | cons p ps ih =>
      intro s
      refine ⟨?_, hiff⟩
      cases hneed : needUpload env now metas fileIds p with
      | false =>
          obtain ⟨⟨w', hrun, hlog, hloc⟩, _⟩ := ih s
          refine ⟨w', ?_, ?_, hloc⟩
          · unfold uploadPassLoop
            simp only [hneed, Bool.false_eq_true, if_false]
            rw [hrun]
            simp [List.filter_cons, hneed]
          · rw [hlog]
            simp [List.filter_cons, hneed]
      | true =>
          obtain ⟨⟨w', hrun, hlog, hloc⟩, _⟩ := ih
            ⟨⟨s.w.loc,
              ⟨s.w.drive.foldersJson, s.w.drive.deletedFoldersJson, s.w.drive.pagesJson,
               s.w.drive.deletedPagesJson,
               putPageFile ("page-" ++ p.id ++ ".md") (serializePageContent p)
                 s.w.drive.pageFiles⟩,
              s.w.log ++ [Op.drivePutPage p.id]⟩,
             { s.r with pagesUploaded := s.r.pagesUploaded + 1 }⟩
          refine ⟨w', ?_, ?_, hloc⟩
          · unfold uploadPassLoop driveUploadPageContent World.pushOp
            simp only [hneed, if_true, hup, Bool.false_eq_true, if_false]
            rw [hrun]
            have harith : s.r.pagesUploaded + 1 +
                (ps.filter (needUpload env now metas fileIds)).length =
                s.r.pagesUploaded +
                  ((p :: ps).filter (needUpload env now metas fileIds)).length := by
              simp [List.filter_cons, hneed]
              omega
            simp [harith]
          · rw [hlog]
            simp [List.filter_cons, hneed]

/-- Witness for `uploadPass_uploads_iff` at a concrete upload pass: one page
with no remote metadata (condition (a)). -/
theorem uploadPass_uploads_iff_witness :
    (∃ w', uploadPassLoop exEnv Net.allOk 999 [] [] [⟨"p", "f1", "N", "x", 1, 100, none⟩]
        ⟨exWorldC3, SyncResult.init⟩ =
        .ok ⟨w', { SyncResult.init with pagesUploaded :=
                     SyncResult.init.pagesUploaded +
                       (([⟨"p", "f1", "N", "x", 1, 100, none⟩] : List Page).filter
                         (needUpload exEnv 999 [] [])).length }⟩ ∧
      w'.log = exWorldC3.log ++
        ((([⟨"p", "f1", "N", "x", 1, 100, none⟩] : List Page).filter
            (needUpload exEnv 999 [] [])).map (fun p => Op.drivePutPage p.id)) ∧
      w'.loc = exWorldC3.loc) ∧
    (∀ p : Page,
      needUpload exEnv 999 [] [] p = true ↔
        (jsMapGet PageMetadata.id [] p.id = none
         ∨ (∃ dp, jsMapGet PageMetadata.id [] p.id = some dp ∧
              ([] : List String).contains p.id = false)
         ∨ (∃ dp, jsMapGet PageMetadata.id [] p.id = some dp ∧
              calculateContentHash exEnv 999 p.content ≠ dp.contentHash))) :=
  uploadPass_uploads_iff exEnv Net.allOk 999 [] [] rfl
    [⟨"p", "f1", "N", "x", 1, 100, none⟩] ⟨exWorldC3, SyncResult.init⟩

-- ==================== C7: applying remote page tombstones ====================

/-- `deletePageContent` never throws, only appends to the log (always recording
the call), possibly removes one `pages/` file, and touches nothing else. -/
theorem driveDeletePageContent_facts (net : Net) (id : String) (w : World) :
    ∃ u, (driveDeletePageContent net id w).log = w.log ++ u ∧
      Op.driveDeleteCall id ∈ u ∧
      (driveDeletePageContent net id w).loc = w.loc ∧
      (driveDeletePageContent net id w).drive.foldersJson = w.drive.foldersJson ∧
      (driveDeletePageContent net id w).drive.deletedFoldersJson = w.drive.deletedFoldersJson ∧
      (driveDeletePageContent net id w).drive.pagesJson = w.drive.pagesJson ∧
      (driveDeletePageContent net id w).drive.deletedPagesJson = w.drive.deletedPagesJson := by
  unfold driveDeletePageContent World.pushOp
  cases hlp : net.listPagesFails with
  | true =>
      refine ⟨[Op.driveDeleteCall id, Op.driveListPages], ?_, ?_, ?_, ?_, ?_, ?_, ?_⟩ <;>
        simp [hlp]
  | false =>
      cases hf : lookupPageFile ("page-" ++ id ++ ".md") w.drive.pageFiles with
      | none =>
          refine ⟨[Op.driveDeleteCall id, Op.driveListPages], ?_, ?_, ?_, ?_, ?_, ?_, ?_⟩ <;>
            simp [hlp, hf]
      | some c =>
          cases hd : net.deleteFails with
          | true =>
              refine ⟨[Op.driveDeleteCall id, Op.driveListPages], ?_, ?_, ?_, ?_, ?_, ?_, ?_⟩ <;>
                simp [hlp, hf, hd]
          | false =>
              refine ⟨[Op.driveDeleteCall id, Op.driveListPages,
                Op.driveDeleteFile ("page-" ++ id ++ ".md")], ?_, ?_, ?_, ?_, ?_, ?_, ?_⟩ <;>
                simp [hlp, hf, hd]

/-- Membership in a list of pages with one id filtered out is unchanged for any
other id. -/
theorem any_id_filter (pages : List Page) (x y : String) (hxy : y ≠ x) :
    ((pages.filter (fun p => p.id ≠ x)).any (fun p => p.id = y))
      = pages.any (fun p => p.id = y) := by
  induction pages with
  | nil => rfl
  | cons p ps ih =>
      rw [List.filter_cons]
      by_cases hpx : p.id = x
      · have h1 : (decide (p.id ≠ x)) = false := by simp [hpx]
        have hpy : (decide (p.id = y)) = false := by
          simp only [decide_eq_false_iff_not]
          rw [hpx]
          exact fun h => hxy h.symm
        rw [h1]
        simp only [Bool.false_eq_true, if_false, List.any_cons, hpy, Bool.false_or]
        exact ih
      · have h1 : (decide (p.id ≠ x)) = true := by simp [hpx]
        rw [h1]
        simp only [if_true, List.any_cons]
        rw [ih]

/-- Composing the silent delete of one tombstoned id with the remaining
tombstones' filter. -/
theorem filter_not_any_cons (pages : List Page) (d : DeletedPage) (ds : List DeletedPage) :
    ((pages.filter (fun p => p.id ≠ d.pageId)).filter
        (fun p => !(ds.any (fun e => e.pageId = p.id))))
      = pages.filter (fun p => !((d :: ds).any (fun e => e.pageId = p.id))) := by
  rw [List.filter_filter]
  refine List.filter_congr ?_
  intro p _
  by_cases h : p.id = d.pageId
  · simp [List.any_cons, h]
  · have h2 : ¬ (d.pageId = p.id) := fun hh => h hh.symm
    simp [List.any_cons, h, h2]

/-- Behaviour of the page-tombstone application loop: every tombstoned page is
removed from the local store, no local tombstone is written, `pagesDeleted`
counts exactly the tombstones whose page existed, a remote content-file delete
call is issued for every tombstone, and nothing else of the result record
changes. -/
theorem deletePagesLoop_spec (net : Net) :
    ∀ (ds : List DeletedPage) (s : Run), (ds.map DeletedPage.pageId).Nodup →
      ∃ t, (deletePagesLoop net ds s).w.log = s.w.log ++ t ∧
        (∀ d ∈ ds, Op.driveDeleteCall d.pageId ∈ t) ∧
        (deletePagesLoop net ds s).w.loc.pages
          = s.w.loc.pages.filter (fun p => !(ds.any (fun e => e.pageId = p.id))) ∧
        (deletePagesLoop net ds s).w.loc.deletedPages = s.w.loc.deletedPages ∧
        (deletePagesLoop net ds s).w.loc.folders = s.w.loc.folders ∧
        (deletePagesLoop net ds s).w.loc.deletedFolders = s.w.loc.deletedFolders ∧
        (deletePagesLoop net ds s).w.loc.upgraded = s.w.loc.upgraded ∧
        (deletePagesLoop net ds s).w.drive.deletedPagesJson = s.w.drive.deletedPagesJson ∧
        (deletePagesLoop net ds s).r
          = { s.r with pagesDeleted := s.r.pagesDeleted +
              (ds.filter (fun d => s.w.loc.pages.any (fun p => p.id = d.pageId))).length } := by
  intro ds
  induction ds with
  | nil =>
      intro s _
      refine ⟨[], by simp [deletePagesLoop], by simp, ?_, rfl, rfl, rfl, rfl, rfl, ?_⟩
      · simp [deletePagesLoop]
      · simp [deletePagesLoop]
  | cons d ds ih =>
      intro s hnd
      simp only [List.map_cons, List.nodup_cons] at hnd
      cases hf : s.w.loc.pages.find? (fun p => p.id = d.pageId) with
      | some pg =>
          have hstep : deletePagesLoop net (d :: ds) s =
              deletePagesLoop net ds
                ⟨driveDeletePageContent net d.pageId
                   (dbSilentDeletePage d.pageId (s.w.pushOp (.dbGetPage d.pageId))),
                 { s.r with pagesDeleted := s.r.pagesDeleted + 1 }⟩ := by
            conv_lhs => rw [deletePagesLoop]
            simp only [dbGetPage]
            rw [hf]
          have hany : s.w.loc.pages.any (fun p => p.id = d.pageId) = true := by
            have hpg := List.find?_some hf
            have hmem := List.mem_of_find?_eq_some hf
            exact List.any_eq_true.mpr ⟨pg, hmem, hpg⟩
          rw [hstep]
          obtain ⟨u, hulog, hucall, huloc, _, _, _, hudpj⟩ :=
            driveDeletePageContent_facts net d.pageId
              (dbSilentDeletePage d.pageId (s.w.pushOp (.dbGetPage d.pageId)))
          obtain ⟨t, htlog, htcall, htpages, htdel, htfold, htdf, htupg, htdpj, htr⟩ :=
            ih ⟨driveDeletePageContent net d.pageId
                  (dbSilentDeletePage d.pageId (s.w.pushOp (.dbGetPage d.pageId))),
                { s.r with pagesDeleted := s.r.pagesDeleted + 1 }⟩ hnd.2
          refine ⟨[Op.dbGetPage d.pageId, Op.dbSilentDeletePage d.pageId] ++ u ++ t,
            ?_, ?_, ?_, ?_, ?_, ?_, ?_, ?_, ?_⟩
          · rw [htlog, hulog]
            simp [dbSilentDeletePage, World.pushOp]
          · intro e he
            rcases List.mem_cons.mp he with rfl | he2
            · exact List.mem_append_left _ (List.mem_append_right _ hucall)
            · exact List.mem_append_right _ (htcall e he2)
          · rw [htpages, huloc]
            show ((s.w.loc.pages.filter (fun p => p.id ≠ d.pageId)).filter
              (fun p => !(ds.any (fun e => e.pageId = p.id)))) = _
            exact filter_not_any_cons s.w.loc.pages d ds
          · rw [htdel, huloc]
            rfl
          · rw [htfold, huloc]
            rfl
          · rw [htdf, huloc]
            rfl
          · rw [htupg, huloc]
            rfl
          · rw [htdpj, hudpj]
            rfl
          · rw [htr]
            have hcnt : ∀ e ∈ ds,
                ((driveDeletePageContent net d.pageId
                    (dbSilentDeletePage d.pageId
                      (s.w.pushOp (.dbGetPage d.pageId)))).loc.pages.any
                  (fun p => p.id = e.pageId))
                = s.w.loc.pages.any (fun p => p.id = e.pageId) := by
              intro e he
              rw [huloc]
              show ((s.w.loc.pages.filter (fun p => p.id ≠ d.pageId)).any
                (fun p => p.id = e.pageId)) = _
              refine any_id_filter s.w.loc.pages d.pageId e.pageId ?_
              intro hcontra
              exact hnd.1 (hcontra ▸ List.mem_map_of_mem DeletedPage.pageId he)
            have hfe : (ds.filter (fun e =>
                ((driveDeletePageContent net d.pageId
                    (dbSilentDeletePage d.pageId
                      (s.w.pushOp (.dbGetPage d.pageId)))).loc.pages.any
                  (fun p => p.id = e.pageId)))).length
                = (ds.filter (fun e => s.w.loc.pages.any (fun p => p.id = e.pageId))).length := by
              rw [List.filter_congr hcnt]
            simp only [hfe, List.filter_cons, hany, if_true]
            have : s.r.pagesDeleted + 1 +
                (ds.filter (fun e => s.w.loc.pages.any (fun p => p.id = e.pageId))).length
                = s.r.pagesDeleted +
                  ((ds.filter (fun e => s.w.loc.pages.any (fun p => p.id = e.pageId))).length
                    + 1) := by omega
            simp [this]
      | none =>
          have hnone : ∀ p ∈ s.w.loc.pages, ¬ (p.id = d.pageId) := by
            intro p hp
            have := List.find?_eq_none.mp hf p hp
            simpa using this
          have hany : s.w.loc.pages.any (fun p => p.id = d.pageId) = false := by
            refine List.any_eq_false.mpr ?_
            intro p hp
            simpa using hnone p hp
          have hstep : deletePagesLoop net (d :: ds) s =
              deletePagesLoop net ds
                ⟨driveDeletePageContent net d.pageId (s.w.pushOp (.dbGetPage d.pageId)), s.r⟩ := by
            conv_lhs => rw [deletePagesLoop]
            simp only [dbGetPage]
            rw [hf]
          rw [hstep]
          obtain ⟨u, hulog, hucall, huloc, _, _, _, hudpj⟩ :=
            driveDeletePageContent_facts net d.pageId (s.w.pushOp (.dbGetPage d.pageId))
          obtain ⟨t, htlog, htcall, htpages, htdel, htfold, htdf, htupg, htdpj, htr⟩ :=
            ih ⟨driveDeletePageContent net d.pageId (s.w.pushOp (.dbGetPage d.pageId)), s.r⟩
              hnd.2
          refine ⟨[Op.dbGetPage d.pageId] ++ u ++ t, ?_, ?_, ?_, ?_, ?_, ?_, ?_, ?_, ?_⟩
          · rw [htlog, hulog]
            simp [World.pushOp]
          · intro e he
            rcases List.mem_cons.mp he with rfl | he2
            · exact List.mem_append_left _ (List.mem_append_right _ hucall)
            · exact List.mem_append_right _ (htcall e he2)
          · rw [htpages, huloc]
            show (s.w.loc.pages.filter (fun p => !(ds.any (fun e => e.pageId = p.id)))) = _
            refine List.filter_congr ?_
            intro p hp
            have : ¬ (d.pageId = p.id) := fun hh => hnone p hp hh.symm
            simp [List.any_cons, this]
          · rw [htdel, huloc]
            rfl
          · rw [htfold, huloc]
            rfl
          · rw [htdf, huloc]
            rfl
          · rw [htupg, huloc]
            rfl
          · rw [htdpj, hudpj]
            rfl
          · rw [htr]
            have hcnt : ∀ e ∈ ds,
                ((driveDeletePageContent net d.pageId
                    (s.w.pushOp (.dbGetPage d.pageId))).loc.pages.any
                  (fun p => p.id = e.pageId))
                = s.w.loc.pages.any (fun p => p.id = e.pageId) := by
              intro e _
              rw [huloc]
              rfl
            rw [List.filter_congr hcnt]
            simp [List.filter_cons, hany]

/-- Claim C7: for every remote page tombstone whose page id still exists in the
local store, `syncDeletedPages` deletes the local page silently (the local
tombstone collection is untouched), increments `pagesDeleted` once per such
tombstone, issues a remote content-file delete call for the page id, and the
stage completes without raising an error. -/
theorem syncDeletedPages_applies_tombstones (net : Net) (s : Run) (ds : List DeletedPage)
    (hupg : s.w.loc.upgraded = true)
    (hla : net.listAppFails = false)
    (hdl : net.downloadFails.contains "deletedPages.json" = false)
    (hup : net.uploadFails = false)
    (hjson : s.w.drive.deletedPagesJson = some ⟨"2.0", ds⟩)
    (hnd : (ds.map DeletedPage.pageId).Nodup) :
    ∃ s', syncDeletedPages net s = .ok s' ∧
      s'.w.loc.pages = s.w.loc.pages.filter (fun p => !(ds.any (fun e => e.pageId = p.id))) ∧
      s'.w.loc.deletedPages = s.w.loc.deletedPages ∧
      (∀ d ∈ ds, Op.driveDeleteCall d.pageId ∈ s'.w.log) ∧
      s'.r = { s.r with pagesDeleted := s.r.pagesDeleted +
          (ds.filter (fun d => s.w.loc.pages.any (fun p => p.id = d.pageId))).length } := by
  obtain ⟨t, htlog, htcall, htpages, htdel, _, _, _, _, htr⟩ :=
    deletePagesLoop_spec net ds
      ⟨{ s.w with log := s.w.log ++ [Op.dbGetDeletedPages] ++ [Op.driveListApp]
                                     ++ [Op.driveGetFile "deletedPages.json"] }, s.r⟩ hnd
  refine ⟨⟨{ (deletePagesLoop net ds
        ⟨{ s.w with log := s.w.log ++ [Op.dbGetDeletedPages] ++ [Op.driveListApp]
                                       ++ [Op.driveGetFile "deletedPages.json"] }, s.r⟩).w with
      drive := { (deletePagesLoop net ds
          ⟨{ s.w with log := s.w.log ++ [Op.dbGetDeletedPages] ++ [Op.driveListApp]
                                         ++ [Op.driveGetFile "deletedPages.json"] }, s.r⟩).w.drive with
        deletedPagesJson := some (serializeDeletedPages
          (mergePageDeletedRecords s.w.loc.deletedPages ds)) },
      log := (deletePagesLoop net ds
          ⟨{ s.w with log := s.w.log ++ [Op.dbGetDeletedPages] ++ [Op.driveListApp]
                                         ++ [Op.driveGetFile "deletedPages.json"] }, s.r⟩).w.log
        ++ [Op.drivePutIndex "deletedPages.json"] },
    (deletePagesLoop net ds
        ⟨{ s.w with log := s.w.log ++ [Op.dbGetDeletedPages] ++ [Op.driveListApp]
                                       ++ [Op.driveGetFile "deletedPages.json"] }, s.r⟩).r⟩,
    ?_, ?_, ?_, ?_, ?_⟩
  · unfold syncDeletedPages dbGetAllDeletedPages driveDownloadDeletedPagesJson
      deserializeDeletedPages driveUploadDeletedPagesJson World.pushOp
    simp only [hupg, if_true, hla, Bool.false_eq_true, if_false, hjson, hdl, hup]
  · exact htpages
  · exact htdel
  · intro d hd
    have h1 : Op.driveDeleteCall d.pageId ∈ (deletePagesLoop net ds
        ⟨{ s.w with log := s.w.log ++ [Op.dbGetDeletedPages] ++ [Op.driveListApp]
                                       ++ [Op.driveGetFile "deletedPages.json"] }, s.r⟩).w.log := by
      rw [htlog]
      exact List.mem_append_right _ (htcall d hd)
    exact List.mem_append_left _ h1
  · exact htr

/-- Witness for `syncDeletedPages_applies_tombstones`: one remote tombstone for
a page that exists locally, applied against a concrete world. -/
theorem syncDeletedPages_applies_tombstones_witness :
    ∃ s', syncDeletedPages Net.allOk
        ⟨{ loc := { folders := [exFolder],
                    pages := [⟨"p", "f1", "N", "x", 1, 100, none⟩],
                    deletedFolders := [], deletedPages := [], upgraded := true },
           drive := { foldersJson := none, deletedFoldersJson := none, pagesJson := none,
                      deletedPagesJson := some ⟨"2.0", [⟨"p", 555⟩]⟩,
                      pageFiles := [("page-p.md", "x")] },
           log := [] }, SyncResult.init⟩ = .ok s' ∧
      s'.w.loc.pages = ([⟨"p", "f1", "N", "x", 1, 100, none⟩] : List Page).filter
        (fun p => !(([⟨"p", 555⟩] : List DeletedPage).any (fun e => e.pageId = p.id))) ∧
      s'.w.loc.deletedPages = [] ∧
      (∀ d ∈ ([⟨"p", 555⟩] : List DeletedPage), Op.driveDeleteCall d.pageId ∈ s'.w.log) ∧
      s'.r = { SyncResult.init with pagesDeleted := SyncResult.init.pagesDeleted +
          (([⟨"p", 555⟩] : List DeletedPage).filter
            (fun d => ([⟨"p", "f1", "N", "x", 1, 100, none⟩] : List Page).any
              (fun p => p.id = d.pageId))).length } :=
  syncDeletedPages_applies_tombstones Net.allOk _ [⟨"p", 555⟩] rfl rfl rfl rfl rfl
    (by simp)

-- ==================== C1: the true-conflict branch ====================

/-- The id of a conflict copy differs from the original id. -/
theorem conflictId_ne (pid : String) (now : Nat) : pid ++ "_conflict_" ++ toString now ≠ pid := by
  intro h
  have hlen := congrArg String.length h
  rw [String.length_append, String.length_append] at hlen
  have h10 : ("_conflict_" : String).length = 10 := rfl
  omega

/-- Claim C1: when the download/conflict pass examines a Drive metadata entry
and a local page with the same id, the local content hash differs from the
recorded remote hash, the local `updatedAt` is not strictly greater than the
remote one, and the fetched remote content differs byte-for-byte from the
local content, then (modelling the SHA-256 digest as injective — the spec's
collision-resistance assumption): exactly one new local page is created — a
conflict copy with a distinct id, holding the prior local content, its name
suffixed with the conflict marker and timestamp — the original page's
content, name and `updatedAt` are overwritten with the remote values in
place, `conflicts` is incremented by exactly one and `pagesDownloaded` by
one. -/
theorem conflict_branch_spec (env : Env) (net : Net) (now : Nat)
    (lp : List Page) (dp : PageMetadata) (p : Page) (t : String) (s : Run)
    (hinj : Function.Injective env.digest) (hok : env.digestOk = true)
    (hlookup : jsMapGet Page.id lp dp.id = some p)
    (hhash : calculateContentHash env now p.content ≠ dp.contentHash)
    (hts : p.updatedAt ≤ dp.updatedAt)
    (hlpf : net.listPagesFails = false)
    (hfile : lookupPageFile ("page-" ++ dp.id ++ ".md") s.w.drive.pageFiles = some t)
    (hdlok : net.downloadFails.contains ("page-" ++ dp.id ++ ".md") = false)
    (hdiff : t ≠ p.content)
    (hfresh : s.w.loc.pages.any
      (fun q => q.id = p.id ++ "_conflict_" ++ toString now) = false)
    (hpresent : s.w.loc.pages.any (fun q => q.id = p.id) = true) :
    ∃ w', processDrivePage env net now lp dp s = .ok
        ⟨w', { s.r with
               conflicts := s.r.conflicts + 1,
               pagesDownloaded := s.r.pagesDownloaded + 1 }⟩ ∧
      w'.loc.pages =
        (s.w.loc.pages.map (fun q => if q.id = p.id then
            { p with content := t, name := dp.name, updatedAt := dp.updatedAt } else q))
          ++ [{ p with
                id := p.id ++ "_conflict_" ++ toString now,
                name := p.name ++ " (衝突副本 " ++ env.fmtTime now ++ ")" }] ∧
      (p.id ++ "_conflict_" ++ toString now) ≠ p.id ∧
      w'.loc.deletedPages = s.w.loc.deletedPages := by
  have hid := conflictId_ne p.id now
  have hdigest : calculateContentHash env now p.content ≠ calculateContentHash env now t := by
    rw [calculateContentHash, calculateContentHash, hok]
    simp only [if_true]
    intro h
    exact hdiff (hinj h).symm
  unfold processDrivePage driveDownloadPageContent dbCreatePage dbUpdatePage
  unfold World.pushOp
  rw [hlookup]
  simp only [hlpf, Bool.false_eq_true, if_false, hfile, hdlok]
  rw [if_pos hhash, if_pos hts]
  simp only [deserializePageContent]
  rw [if_pos ⟨hdigest, fun h => hdiff h.symm⟩]
  have hfresh2 : (s.w.loc.pages.any
      (fun q => q.id = p.id ++ "_conflict_" ++ toString now)) = false := hfresh
  dsimp only
  simp only [hfresh2, Bool.false_eq_true, if_false]
  have hanyapp : ((s.w.loc.pages ++
      [{ p with
         id := p.id ++ "_conflict_" ++ toString now,
         name := p.name ++ " (衝突副本 " ++ env.fmtTime now ++ ")" }]).any
      (fun q => q.id = p.id)) = true := by
    rw [List.any_append, hpresent]
    rfl
  simp only [hanyapp, if_true]
  refine ⟨_, rfl, ?_, hid, rfl⟩
  rw [List.map_append]
  simp only [List.map_cons, List.map_nil]
  rw [if_neg hid]

/-- Witness for `conflict_branch_spec`: the spec's own conflict scenario (local
content C1, remote content C2 with a stale local timestamp) at the identity
digest. -/
theorem conflict_branch_spec_witness :
    ∃ w', processDrivePage exEnv Net.allOk 999 [exPageA] exMetaB
        ⟨exWorldC1, SyncResult.init⟩ = .ok
        ⟨w', { SyncResult.init with
               conflicts := SyncResult.init.conflicts + 1,
               pagesDownloaded := SyncResult.init.pagesDownloaded + 1 }⟩ ∧
      w'.loc.pages =
        ([exPageA].map (fun q => if q.id = exPageA.id then
            { exPageA with
              content := "C2", name := exMetaB.name,
              updatedAt := exMetaB.updatedAt } else q))
          ++ [{ exPageA with
                id := exPageA.id ++ "_conflict_" ++ toString 999,
                name := exPageA.name ++ " (衝突副本 " ++ exEnv.fmtTime 999 ++ ")" }] ∧
      (exPageA.id ++ "_conflict_" ++ toString 999) ≠ exPageA.id ∧
      w'.loc.deletedPages = exWorldC1.loc.deletedPages :=
  conflict_branch_spec exEnv Net.allOk 999 [exPageA] exMetaB exPageA "C2"
    ⟨exWorldC1, SyncResult.init⟩ (fun _ _ h => h) rfl (by decide) (by decide) (by decide)
    rfl (by decide) rfl (by decide) (by decide) (by decide)

-- ==================== C4 / C5: behaviour of a run from a consistent state ======

theorem getPageFileName_inj {a b : String} (h : getPageFileName a = getPageFileName b) :
    a = b := by
  have h2 := congrArg String.toList h
  have h3 : "page-".toList ++ a.toList ++ ".md".toList
      = "page-".toList ++ b.toList ++ ".md".toList := h2
  have h4 := List.append_cancel_left (List.append_cancel_right h3)
  calc a = String.mk a.toList := rfl
    _ = String.mk b.toList := by rw [h4]
    _ = b := rfl

/-- `Synced` does not depend on the instrumentation log. -/
theorem Synced.withNewLog {env : Env} {w : World} (h : Synced env w) (l : List Op) :
    Synced env { w with log := l } :=
  ⟨h.digestOk, h.upgraded, h.folderIdsNodup, h.pageIdsNodup, h.foldersJson, h.pagesJson,
   h.pageFiles, h.deletedFoldersJson, h.deletedPagesJson, h.idsClean,
   h.localDeletedFoldersClean, h.localDeletedPagesClean⟩

/-- Comparing a folder list against itself detects nothing. -/
theorem compareFolders_self (fs : List Folder) (hnd : (fs.map Folder.id).Nodup) :
    compareFolders fs fs = ([], []) := by
  unfold compareFolders
  have h1 : fs.filter (fun lf =>
      match jsMapGet Folder.id fs lf.id with
      | none => true
      | some df => decide (df.updatedAt < lf.updatedAt)) = [] := by
    refine List.filter_eq_nil_iff.mpr ?_
    intro f hf
    rw [jsMapGet_eq_some_self Folder.id fs hnd hf]
    simp
  rw [h1]

/-- Comparing local pages against their own accurate metadata detects
nothing. -/
theorem comparePages_mirror (env : Env) (ps : List Page)
    (hnd : (ps.map Page.id).Nodup) :
    comparePages ps (ps.map (mirrorMetadata env)) = ([], []) := by
  unfold comparePages
  have h1 : ps.filter (fun lp =>
      match jsMapGet PageMetadata.id (ps.map (mirrorMetadata env)) lp.id with
      | none => true
      | some dp => decide (dp.updatedAt < lp.updatedAt)) = [] := by
    refine List.filter_eq_nil_iff.mpr ?_
    intro p hp
    rw [jsMapGet_map_eq_some PageMetadata.id Page.id (mirrorMetadata env)
      (fun a => rfl) ps hnd hp]
    simp [mirrorMetadata]
  have h2 : (ps.map (mirrorMetadata env)).filter (fun dp =>
      match jsMapGet Page.id ps dp.id with
      | none => true
      | some lp => decide (lp.updatedAt < dp.updatedAt)) = [] := by
    refine List.filter_eq_nil_iff.mpr ?_
    intro dp hdp
    obtain ⟨p, hp, rfl⟩ := List.mem_map.mp hdp
    have : jsMapGet Page.id ps (mirrorMetadata env p).id = some p :=
      jsMapGet_eq_some_self Page.id ps hnd hp
    rw [this]
    simp [mirrorMetadata]
  rw [h1, h2]

/-- `jsSet` of a duplicate-free list is the list itself. -/
theorem jsSetAux_of_nodup :
    ∀ (xs seen : List String), xs.Nodup → (∀ x ∈ xs, x ∉ seen) → jsSetAux seen xs = xs := by
  intro xs
  induction xs with
  | nil => intro seen _ _; rfl
  | cons x xs ih =>
      intro seen hnd hdis
      have hx : seen.contains x = false := by
        simpa using hdis x (List.mem_cons_self x xs)
      unfold jsSetAux
      rw [hx]
      simp only [Bool.false_eq_true, if_false]
      rw [ih (x :: seen) (List.nodup_cons.mp hnd).2 ?_]
      intro y hy
      rw [List.mem_cons]
      rintro (rfl | hseen)
      · exact (List.nodup_cons.mp hnd).1 hy
      · exact hdis y (List.mem_cons_of_mem x hy) hseen

theorem jsSet_of_nodup (xs : List String) (h : xs.Nodup) : jsSet xs = xs :=
  jsSetAux_of_nodup xs [] h (fun x _ => List.not_mem_nil x)

/-- `upsertDeleted` introduces no key other than the one inserted. -/
theorem upsertDeleted_keys (acc : List (String × Nat)) (k : String) (v : Nat) :
    ∀ e ∈ upsertDeleted acc k v, e.1 ∈ acc.map Prod.fst ∨ e.1 = k := by
  intro e he
  unfold upsertDeleted at he
  split at he
  · rcases List.mem_append.mp he with h1 | h1
    · exact Or.inl (List.mem_map_of_mem Prod.fst h1)
    · right
      rw [List.mem_singleton.mp h1]
  · split at he
    · obtain ⟨x, hx, hxe⟩ := List.mem_map.mp he
      by_cases hxk : x.1 = k
      · rw [if_pos hxk] at hxe
        right
        rw [← hxe]
      · rw [if_neg hxk] at hxe
        rw [← hxe]
        exact Or.inl (List.mem_map_of_mem Prod.fst hx)
    · exact Or.inl (List.mem_map_of_mem Prod.fst he)

/-- Every key of the tombstone-merge fold comes from the accumulator or from
the merged entries. -/
theorem mergeFold_keys :
    ∀ (es acc : List (String × Nat)),
      ∀ e ∈ es.foldl (fun acc e => upsertDeleted acc e.1 e.2) acc,
        e.1 ∈ acc.map Prod.fst ∨ e.1 ∈ es.map Prod.fst := by
  intro es
  induction es with
  | nil =>
      intro acc e he
      exact Or.inl (List.mem_map_of_mem Prod.fst he)
  | cons a es ih =>
      intro acc e he
      rcases ih (upsertDeleted acc a.1 a.2) e he with h1 | h1
      · obtain ⟨x, hx, hxe⟩ := List.mem_map.mp h1
        rcases upsertDeleted_keys acc a.1 a.2 x hx with h2 | h2
        · exact Or.inl (hxe ▸ h2)
        · right
          rw [← hxe, h2]
          exact List.mem_cons_self a.1 (es.map Prod.fst)
      · right
        exact List.mem_cons_of_mem a.1 h1

/-- Every folder-tombstone produced by the merge carries the id of one of the
merged tombstones. -/
theorem mergeDeletedRecords_keys (A B : List DeletedFolder) :
    ∀ d ∈ mergeDeletedRecords A B, ∃ e, e ∈ A ++ B ∧ e.folderId = d.folderId := by
  intro d hd
  unfold mergeDeletedRecords at hd
  obtain ⟨e, he, hde⟩ := List.mem_map.mp hd
  rcases mergeFold_keys _ [] e he with h1 | h1
  · simp at h1
  · simp only [List.map_map, List.mem_map] at h1
    obtain ⟨x, hx, hxe⟩ := h1
    exact ⟨x, hx, by rw [← hde]; exact hxe⟩

/-- Every page-tombstone produced by the merge carries the id of one of the
merged tombstones. -/
theorem mergePageDeletedRecords_keys (A B : List DeletedPage) :
    ∀ d ∈ mergePageDeletedRecords A B, ∃ e, e ∈ A ++ B ∧ e.pageId = d.pageId := by
  intro d hd
  unfold mergePageDeletedRecords at hd
  obtain ⟨e, he, hde⟩ := List.mem_map.mp hd
  rcases mergeFold_keys _ [] e he with h1 | h1
  · simp at h1
  · simp only [List.map_map, List.mem_map] at h1
    obtain ⟨x, hx, hxe⟩ := h1
    exact ⟨x, hx, by rw [← hde]; exact hxe⟩

/-- The folder-tombstone loop does nothing when no tombstone matches a live
folder. -/
theorem deleteFoldersLoop_noop :
    ∀ (ds : List DeletedFolder) (s : Run),
      (∀ d ∈ ds, s.w.loc.folders.find? (fun f => f.id = d.folderId) = none) →
      ∃ lg, deleteFoldersLoop ds s = ⟨{ s.w with log := s.w.log ++ lg }, s.r⟩ ∧
        lg.filter Op.isWrite = [] := by
  intro ds
  induction ds with
  | nil =>
      intro s _
      exact ⟨[], by simp [deleteFoldersLoop], rfl⟩
  | cons d ds ih =>
      intro s hnone
      have hstep : deleteFoldersLoop (d :: ds) s =
          deleteFoldersLoop ds ⟨s.w.pushOp (.dbGetFolder d.folderId), s.r⟩ := by
        conv_lhs => rw [deleteFoldersLoop]
        simp only [dbGetFolder]
        rw [hnone d (List.mem_cons_self d ds)]
      rw [hstep]
      obtain ⟨lg, hrun, hw⟩ := ih ⟨s.w.pushOp (.dbGetFolder d.folderId), s.r⟩
        (fun e he => hnone e (List.mem_cons_of_mem d he))
      refine ⟨[Op.dbGetFolder d.folderId] ++ lg, ?_,
        by simp [List.filter_append, hw, Op.isWrite]⟩
      rw [hrun]
      simp [World.pushOp, List.append_assoc]

/-- The page-tombstone loop does nothing (beyond reads and delete calls on
absent files) when no tombstone matches a live page or an existing content
file. -/
theorem deletePagesLoop_noop (net : Net) (hlp : net.listPagesFails = false) :
    ∀ (ds : List DeletedPage) (s : Run),
      (∀ d ∈ ds, s.w.loc.pages.find? (fun p => p.id = d.pageId) = none) →
      (∀ d ∈ ds, lookupPageFile ("page-" ++ d.pageId ++ ".md") s.w.drive.pageFiles = none) →
      ∃ lg, deletePagesLoop net ds s = ⟨{ s.w with log := s.w.log ++ lg }, s.r⟩ ∧
        lg.filter Op.isWrite = [] := by
  intro ds
  induction ds with
  | nil =>
      intro s _ _
      exact ⟨[], by simp [deletePagesLoop], rfl⟩
  | cons d ds ih =>
      intro s hnone hnofile
      have hstep : deletePagesLoop net (d :: ds) s =
          deletePagesLoop net ds
            ⟨((s.w.pushOp (.dbGetPage d.pageId)).pushOp
                (.driveDeleteCall d.pageId)).pushOp .driveListPages, s.r⟩ := by
        conv_lhs => rw [deletePagesLoop]
        simp only [dbGetPage]
        rw [hnone d (List.mem_cons_self d ds)]
        unfold driveDeletePageContent World.pushOp
        dsimp only
        simp only [hlp, Bool.false_eq_true, if_false]
        rw [hnofile d (List.mem_cons_self d ds)]
      rw [hstep]
      obtain ⟨lg, hrun, hw⟩ := ih
        ⟨((s.w.pushOp (.dbGetPage d.pageId)).pushOp
            (.driveDeleteCall d.pageId)).pushOp .driveListPages, s.r⟩
        (fun e he => hnone e (List.mem_cons_of_mem d he))
        (fun e he => hnofile e (List.mem_cons_of_mem d he))
      refine ⟨[Op.dbGetPage d.pageId, Op.driveDeleteCall d.pageId, Op.driveListPages] ++ lg,
        ?_, by simp [List.filter_append, hw, Op.isWrite]⟩
      rw [hrun]
      simp [World.pushOp, List.append_assoc]

/-- The upload pass does nothing at all when no page needs an upload. -/
theorem uploadPassLoop_noop (env : Env) (net : Net) (now : Nat)
    (metas : List PageMetadata) (fileIds : List String) :
    ∀ (ps : List Page) (s : Run), (∀ p ∈ ps, needUpload env now metas fileIds p = false) →
      uploadPassLoop env net now metas fileIds ps s = .ok s := by
  intro ps
  induction ps with
  | nil => intro s _; rfl
  | cons p ps ih =>
      intro s h
      unfold uploadPassLoop
      rw [h p (List.mem_cons_self p ps)]
      simp only [Bool.false_eq_true, if_false]
      exact ih s (fun q hq => h q (List.mem_cons_of_mem p hq))

/-- The download / conflict pass does nothing when every metadata entry has a
matching local page with the recorded hash. -/
theorem downloadPassLoop_noop (env : Env) (net : Net) (now : Nat) (lp : List Page) :
    ∀ (metas : List PageMetadata) (s : Run),
      (∀ dp ∈ metas, ∃ p, jsMapGet Page.id lp dp.id = some p ∧
        calculateContentHash env now p.content = dp.contentHash) →
      downloadPassLoop env net now lp metas s = .ok s := by
  intro metas
  induction metas with
  | nil => intro s _; rfl
  | cons dp dps ih =>
      intro s h
      obtain ⟨p, hp, hhash⟩ := h dp (List.mem_cons_self dp dps)
      unfold downloadPassLoop
      have hbody : processDrivePage env net now lp dp s = .ok s := by
        unfold processDrivePage
        rw [hp]
        simp only []
        rw [if_neg (fun hne => hne hhash)]
      rw [hbody]
      simp only []
      exact ih s (fun e he => h e (List.mem_cons_of_mem dp he))

/-- Stage A from a consistent state: reads only, nothing uploaded. -/
theorem syncFolders_synced (env : Env) (now : Nat) (s : Run) (h : Synced env s.w) :
    ∃ lg, syncFolders Net.allOk now s = .ok ⟨{ s.w with log := s.w.log ++ lg }, s.r⟩ ∧
      lg.filter Op.isWrite = [] := by
  obtain ⟨L, hfj⟩ := h.foldersJson
  refine ⟨[Op.dbGetAllFolders, Op.driveListApp, Op.driveGetFile "folders.json"], ?_, rfl⟩
  unfold syncFolders dbGetAllFolders driveDownloadFoldersJson World.pushOp
  dsimp only
  simp only [Net.allOk, Bool.false_eq_true, if_false, hfj, List.contains, List.elem]
  unfold deserializeFolders
  simp only [if_pos rfl]
  rw [if_pos trivial]
  dsimp only
  rw [compareFolders_self s.w.loc.folders h.folderIdsNodup]
  simp [downloadFoldersLoop, List.append_assoc]

/-- Stage B from a consistent state: no local change, no count, one
unconditional upload of the merged folder-tombstone index; no merged
tombstone matches a live folder. -/
theorem syncDeletedFolders_synced (env : Env) (s : Run) (h : Synced env s.w) :
    ∃ lg dfs2, syncDeletedFolders Net.allOk s = .ok
        ⟨{ s.w with
           drive := { s.w.drive with deletedFoldersJson := some ⟨"2.0", dfs2⟩ },
           log := s.w.log ++ lg }, s.r⟩ ∧
      lg.filter Op.isWrite = [Op.drivePutIndex "deletedFolders.json"] ∧
      ∀ d ∈ dfs2, s.w.loc.folders.find? (fun f => f.id = d.folderId) = none := by
  obtain ⟨dfs, hdfj, hnone⟩ := h.deletedFoldersJson
  obtain ⟨lg2, hloop, hlw⟩ := deleteFoldersLoop_noop dfs
    ⟨{ s.w with log := s.w.log ++ [Op.dbGetDeletedFolders] ++ [Op.driveListApp]
                     ++ [Op.driveGetFile "deletedFolders.json"] }, s.r⟩
    (fun d hd => hnone d hd)
  refine ⟨[Op.dbGetDeletedFolders] ++ [Op.driveListApp]
      ++ [Op.driveGetFile "deletedFolders.json"] ++ lg2
      ++ [Op.drivePutIndex "deletedFolders.json"],
    mergeDeletedRecords s.w.loc.deletedFolders dfs,
    ?_, by simp [List.filter_append, hlw, Op.isWrite], ?_⟩
  · unfold syncDeletedFolders dbGetAllDeletedFolders driveDownloadDeletedFoldersJson
      driveUploadDeletedFoldersJson World.pushOp
    dsimp only
    simp only [h.upgraded, if_true, Net.allOk, Bool.false_eq_true, if_false, hdfj,
      List.contains, List.elem]
    rw [show deserializeDeletedFolders ⟨"2.0", dfs⟩ = Except.ok ⟨"2.0", dfs⟩ from rfl]
    dsimp only
    rw [hloop]
    simp [List.append_assoc, serializeDeletedFolders]
  · intro d hd
    obtain ⟨e, hmem, hkey⟩ :=
      mergeDeletedRecords_keys s.w.loc.deletedFolders dfs d hd
    rcases List.mem_append.mp hmem with hl | hr
    · have := h.localDeletedFoldersClean e hl
      rw [hkey] at this
      exact this
    · have := hnone e hr
      rw [hkey] at this
      exact this

/-- Stage C from a consistent state: reads only, nothing uploaded. -/
theorem syncPages_synced (env : Env) (now : Nat) (s : Run) (h : Synced env s.w) :
    ∃ lg, syncPages env Net.allOk now s = .ok ⟨{ s.w with log := s.w.log ++ lg }, s.r⟩ ∧
      lg.filter Op.isWrite = [] := by
  obtain ⟨L2, hpj⟩ := h.pagesJson
  refine ⟨[Op.dbGetAllPages, Op.driveListApp, Op.driveGetFile "pages.json"], ?_, rfl⟩
  unfold syncPages dbGetAllPages driveDownloadPagesJson World.pushOp
  dsimp only
  simp only [Net.allOk, Bool.false_eq_true, if_false, hpj, List.contains, List.elem]
  rw [show deserializePages ⟨"2.0", L2, s.w.loc.pages.map (mirrorMetadata env)⟩
    = Except.ok ⟨"2.0", L2, s.w.loc.pages.map (mirrorMetadata env)⟩ from rfl]
  dsimp only
  rw [comparePages_mirror env s.w.loc.pages h.pageIdsNodup]
  simp [List.append_assoc]

/-- No content file exists for an id that is not a local page id (consistent
file listing). -/
theorem lookup_mapped_files_none (pages : List Page) (x : String)
    (h : ∀ p ∈ pages, ¬ (p.id = x)) :
    lookupPageFile ("page-" ++ x ++ ".md")
      (pages.map (fun p => (getPageFileName p.id, p.content))) = none := by
  unfold lookupPageFile
  have hfind : (pages.map (fun p => (getPageFileName p.id, p.content))).find?
      (fun f => f.1 = ("page-" ++ x ++ ".md")) = none := by
    refine List.find?_eq_none.mpr ?_
    intro pr hpr
    obtain ⟨p, hp, rfl⟩ := List.mem_map.mp hpr
    simp only [decide_eq_true_eq]
    intro heq
    exact h p hp (getPageFileName_inj heq)
  rw [hfind]
  rfl

/-- Stage D from a consistent state: no local change, no count, delete calls
only on absent files, one unconditional upload of the merged page-tombstone
index; no merged tombstone matches a live page. -/
theorem syncDeletedPages_synced (env : Env) (s : Run) (h : Synced env s.w) :
    ∃ lg dps2, syncDeletedPages Net.allOk s = .ok
        ⟨{ s.w with
           drive := { s.w.drive with deletedPagesJson := some ⟨"2.0", dps2⟩ },
           log := s.w.log ++ lg }, s.r⟩ ∧
      lg.filter Op.isWrite = [Op.drivePutIndex "deletedPages.json"] ∧
      ∀ d ∈ dps2, s.w.loc.pages.find? (fun p => p.id = d.pageId) = none := by
  obtain ⟨dps, hdpj, hnone⟩ := h.deletedPagesJson
  have hnofile : ∀ d ∈ dps, lookupPageFile ("page-" ++ d.pageId ++ ".md")
      s.w.drive.pageFiles = none := by
    intro d hd
    rw [h.pageFiles]
    refine lookup_mapped_files_none s.w.loc.pages d.pageId ?_
    intro p hp
    have := List.find?_eq_none.mp (hnone d hd) p hp
    simpa using this
  obtain ⟨lg2, hloop, hlw⟩ := deletePagesLoop_noop Net.allOk rfl dps
    ⟨{ s.w with log := s.w.log ++ [Op.dbGetDeletedPages] ++ [Op.driveListApp]
                     ++ [Op.driveGetFile "deletedPages.json"] }, s.r⟩
    (fun d hd => hnone d hd)
    (fun d hd => hnofile d hd)
  refine ⟨[Op.dbGetDeletedPages] ++ [Op.driveListApp]
      ++ [Op.driveGetFile "deletedPages.json"] ++ lg2
      ++ [Op.drivePutIndex "deletedPages.json"],
    mergePageDeletedRecords s.w.loc.deletedPages dps,
    ?_, by simp [List.filter_append, hlw, Op.isWrite], ?_⟩
  · unfold syncDeletedPages dbGetAllDeletedPages driveDownloadDeletedPagesJson
      driveUploadDeletedPagesJson World.pushOp
    dsimp only
    simp only [h.upgraded, if_true, Net.allOk, Bool.false_eq_true, if_false, hdpj,
      List.contains, List.elem]
    rw [show deserializeDeletedPages ⟨"2.0", dps⟩ = Except.ok ⟨"2.0", dps⟩ from rfl]
    dsimp only
    simp only [Net.allOk] at hloop
    rw [hloop]
    simp [List.append_assoc, serializeDeletedPages]
  · intro d hd
    obtain ⟨e, hmem, hkey⟩ :=
      mergePageDeletedRecords_keys s.w.loc.deletedPages dps d hd
    rcases List.mem_append.mp hmem with hl | hr
    · have := h.localDeletedPagesClean e hl
      rw [hkey] at this
      exact this
    · have := hnone e hr
      rw [hkey] at this
      exact this

/-- Stage E from a consistent state: reads only — every content file is
accounted for in `pages.json` (no repair), no page needs an upload, and the
download pass finds every hash in agreement. -/
theorem syncPageContents_synced (env : Env) (now : Nat) (s : Run) (h : Synced env s.w) :
    ∃ lg, syncPageContents env Net.allOk now s
        = .ok ⟨{ s.w with log := s.w.log ++ lg }, s.r⟩ ∧
      lg.filter Op.isWrite = [] := by
  obtain ⟨L2, hpj⟩ := h.pagesJson
  have hstripmap : (s.w.drive.pageFiles.map Prod.fst).map stripPageFileName
      = s.w.loc.pages.map Page.id := by
    rw [h.pageFiles, List.map_map, List.map_map]
    refine List.map_eq_map_iff.mpr ?_
    intro p hp
    exact (h.idsClean p hp).1
  have hids : jsSet ((s.w.drive.pageFiles.map Prod.fst).map stripPageFileName)
      = s.w.loc.pages.map Page.id := by
    rw [hstripmap]
    exact jsSet_of_nodup _ h.pageIdsNodup
  have hfids : jsSet (((s.w.drive.pageFiles.map Prod.fst).map stripPageFileName).filter
      (fun i => i ≠ "")) = s.w.loc.pages.map Page.id := by
    rw [hstripmap]
    rw [List.filter_eq_self.mpr ?_]
    · exact jsSet_of_nodup _ h.pageIdsNodup
    · intro a ha
      obtain ⟨p, hp, rfl⟩ := List.mem_map.mp ha
      simpa using (h.idsClean p hp).2
  have hrepair : ∀ w : World, repairMetadata env Net.allOk now
      (s.w.loc.pages.map (mirrorMetadata env)) (s.w.loc.pages.map Page.id) w
      = .ok (s.w.loc.pages.map (mirrorMetadata env), w) := by
    intro w
    unfold repairMetadata
    rw [if_neg (not_not_intro (by simp))]
  have hneed : ∀ p ∈ s.w.loc.pages,
      needUpload env now (s.w.loc.pages.map (mirrorMetadata env))
        (s.w.loc.pages.map Page.id) p = false := by
    intro p hp
    unfold needUpload
    rw [jsMapGet_map_eq_some PageMetadata.id Page.id (mirrorMetadata env)
      (fun a => rfl) s.w.loc.pages h.pageIdsNodup hp]
    have hc : (s.w.loc.pages.map Page.id).contains p.id = true := by
      simpa using List.mem_map_of_mem Page.id hp
    dsimp only
    rw [hc, if_pos rfl]
    simp [calculateContentHash, h.digestOk, mirrorMetadata]
  have hdown : ∀ dp ∈ s.w.loc.pages.map (mirrorMetadata env),
      ∃ p, jsMapGet Page.id s.w.loc.pages dp.id = some p ∧
        calculateContentHash env now p.content = dp.contentHash := by
    intro dp hdp
    obtain ⟨p, hp, rfl⟩ := List.mem_map.mp hdp
    exact ⟨p, jsMapGet_eq_some_self Page.id s.w.loc.pages h.pageIdsNodup hp,
      by simp [calculateContentHash, h.digestOk, mirrorMetadata]⟩
  have hup := uploadPassLoop_noop env Net.allOk now
    (s.w.loc.pages.map (mirrorMetadata env)) (s.w.loc.pages.map Page.id)
    s.w.loc.pages
  have hdl := downloadPassLoop_noop env Net.allOk now s.w.loc.pages
    (s.w.loc.pages.map (mirrorMetadata env))
  refine ⟨[Op.dbGetAllPages, Op.driveListApp, Op.driveGetFile "pages.json",
    Op.driveListPages, Op.driveListPages], ?_, rfl⟩
  unfold syncPageContents dbGetAllPages driveDownloadPagesJson driveListAllPageFiles
    World.pushOp
  dsimp only
  simp only [Net.allOk, Bool.false_eq_true, if_false, hpj, List.contains, List.elem]
  rw [show deserializePages ⟨"2.0", L2, s.w.loc.pages.map (mirrorMetadata env)⟩
    = Except.ok ⟨"2.0", L2, s.w.loc.pages.map (mirrorMetadata env)⟩ from rfl]
  dsimp only
  rw [hids]
  simp only [Net.allOk] at hrepair
  rw [hrepair]
  dsimp only
  rw [hfids]
  simp only [Net.allOk] at hup
  rw [hup _ hneed]
  dsimp only
  simp only [Net.allOk] at hdl
  rw [hdl _ hdown]
  simp [List.append_assoc]

/-- The five chained stages from a consistent state: the local store is
untouched, the result record is untouched, and the only writes are the two
unconditional tombstone-index uploads. -/
theorem runStages_synced (env : Env) (now : Nat) (s : Run) (h : Synced env s.w) :
    ∃ lg dfs dps, runStages env Net.allOk now s = .ok
        ⟨{ s.w with
           drive := { s.w.drive with
                        deletedFoldersJson := some ⟨"2.0", dfs⟩,
                        deletedPagesJson := some ⟨"2.0", dps⟩ },
           log := s.w.log ++ lg }, s.r⟩ ∧
      lg.filter Op.isWrite
        = [Op.drivePutIndex "deletedFolders.json", Op.drivePutIndex "deletedPages.json"] := by
  obtain ⟨lgA, hA, hwA⟩ := syncFolders_synced env now s h
  have h1 : Synced env { s.w with log := s.w.log ++ lgA } := h.withNewLog _
  obtain ⟨lgB, dfs, hB, hwB, hcleanB⟩ :=
    syncDeletedFolders_synced env ⟨{ s.w with log := s.w.log ++ lgA }, s.r⟩ h1
  have h2 : Synced env
      { s.w with
        drive := { s.w.drive with deletedFoldersJson := some ⟨"2.0", dfs⟩ },
        log := (s.w.log ++ lgA) ++ lgB } :=
    ⟨h.digestOk, h.upgraded, h.folderIdsNodup, h.pageIdsNodup, h.foldersJson, h.pagesJson,
     h.pageFiles, ⟨dfs, rfl, hcleanB⟩, h.deletedPagesJson, h.idsClean,
     h.localDeletedFoldersClean, h.localDeletedPagesClean⟩
  obtain ⟨lgC, hC, hwC⟩ := syncPages_synced env now
    ⟨{ s.w with
       drive := { s.w.drive with deletedFoldersJson := some ⟨"2.0", dfs⟩ },
       log := (s.w.log ++ lgA) ++ lgB }, s.r⟩ h2
  have h3 : Synced env
      { s.w with
        drive := { s.w.drive with deletedFoldersJson := some ⟨"2.0", dfs⟩ },
        log := ((s.w.log ++ lgA) ++ lgB) ++ lgC } := h2.withNewLog _
  obtain ⟨lgD, dps, hD, hwD, hcleanD⟩ := syncDeletedPages_synced env
    ⟨{ s.w with
       drive := { s.w.drive with deletedFoldersJson := some ⟨"2.0", dfs⟩ },
       log := ((s.w.log ++ lgA) ++ lgB) ++ lgC }, s.r⟩ h3
  have h4 : Synced env
      { s.w with
        drive := { s.w.drive with
                     deletedFoldersJson := some ⟨"2.0", dfs⟩,
                     deletedPagesJson := some ⟨"2.0", dps⟩ },
        log := (((s.w.log ++ lgA) ++ lgB) ++ lgC) ++ lgD } :=
    ⟨h.digestOk, h.upgraded, h.folderIdsNodup, h.pageIdsNodup, h.foldersJson, h.pagesJson,
     h.pageFiles, ⟨dfs, rfl, hcleanB⟩, ⟨dps, rfl, hcleanD⟩, h.idsClean,
     h.localDeletedFoldersClean, h.localDeletedPagesClean⟩
  obtain ⟨lgE, hE, hwE⟩ := syncPageContents_synced env now
    ⟨{ s.w with
       drive := { s.w.drive with
                    deletedFoldersJson := some ⟨"2.0", dfs⟩,
                    deletedPagesJson := some ⟨"2.0", dps⟩ },
       log := (((s.w.log ++ lgA) ++ lgB) ++ lgC) ++ lgD }, s.r⟩ h4
  refine ⟨lgA ++ (lgB ++ (lgC ++ (lgD ++ lgE))), dfs, dps, ?_,
    by simp [List.filter_append, hwA, hwB, hwC, hwD, hwE]⟩
  unfold runStages
  rw [hA]
  dsimp only
  rw [hB]
  dsimp only
  rw [hC]
  dsimp only
  rw [hD]
  dsimp only
  rw [hE]
  simp [List.append_assoc]

/-- `performSync` from a consistent state: the run succeeds with the pristine
result record, the local store is untouched, and the only writes are the two
unconditional tombstone-index uploads. -/
theorem performSync_synced (env : Env) (now : Nat) (mgr : SyncMgr) (w : World)
    (hmgr : mgr.isSyncing = false) (h : Synced env w) :
    ∃ lg dfs dps, performSync env Net.allOk now mgr w = .ok (⟨false⟩,
        { w with
          drive := { w.drive with
                       deletedFoldersJson := some ⟨"2.0", dfs⟩,
                       deletedPagesJson := some ⟨"2.0", dps⟩ },
          log := w.log ++ lg },
        { SyncResult.init with success := true }) ∧
      lg.filter Op.isWrite
        = [Op.drivePutIndex "deletedFolders.json", Op.drivePutIndex "deletedPages.json"] := by
  obtain ⟨lg, dfs, dps, hrs, hw⟩ := runStages_synced env now ⟨w, SyncResult.init⟩ h
  refine ⟨lg, dfs, dps, ?_, hw⟩
  unfold performSync
  rw [hmgr]
  simp only [Bool.false_eq_true, if_false, Net.allOk]
  simp only [Net.allOk] at hrs
  rw [hrs]

-- ==================== C4 / C5: the re-run of a completed sync ====================

theorem exSyncedW1_synced : Synced exEnv exSyncedW1 :=
  ⟨by decide, by decide, by decide, by decide, ⟨7, by decide⟩, ⟨7, by decide⟩, by decide,
   ⟨[], by decide⟩, ⟨[], by decide⟩, by decide, by decide, by decide⟩

/-- Claim C4 counterexample: a full sync from `exStale` completes successfully
and leaves both stores unchanged — so nothing at all is mutated between the
runs — yet re-running writes to both stores: it re-uploads the
folder-tombstone index, re-uploads the content of page `p`, and rewrites the
local row of page `p`. -/
theorem performSync_rerun_counterexample :
    (runResult (performSync exEnv Net.allOk 5 ⟨false⟩ exStale)).map SyncResult.success
      = some true ∧
    (runWorld (performSync exEnv Net.allOk 5 ⟨false⟩ exStale)).map World.loc
      = some exStale.loc ∧
    (runWorld (performSync exEnv Net.allOk 5 ⟨false⟩ exStale)).map World.drive
      = some exStale.drive ∧
    ((runWorld (performSync exEnv Net.allOk 5 ⟨false⟩ exStale)).bind (fun w1 =>
        (runWorld (performSync exEnv Net.allOk 5 ⟨false⟩ w1)).map (fun w2 =>
          (w2.log.drop w1.log.length).filter Op.isWrite)))
      = some [Op.drivePutIndex "deletedFolders.json", Op.drivePutPage "p",
              Op.dbUpdatePage "p"] := by
  decide

/-- Claim C4 (amended): after a completed run, re-running the full sync
performs zero local-store writes and no remote writes other than
unconditionally re-uploading the two tombstone indexes — provided the first
run left a state in which the remote store accurately mirrors the local store
(`Synced`); a completed run does not by itself establish that state, and the
two index uploads happen on every run. -/
theorem performSync_rerun_frame (env : Env) (now1 now2 : Nat) (mgr : SyncMgr)
    (w0 w1 : World) (r1 : SyncResult)
    (hrun1 : performSync env Net.allOk now1 mgr w0 = .ok (⟨false⟩, w1, r1))
    (h : Synced env w1) :
    ∃ lg dfs dps, performSync env Net.allOk now2 ⟨false⟩ w1 = .ok (⟨false⟩,
        { w1 with
          drive := { w1.drive with
                       deletedFoldersJson := some ⟨"2.0", dfs⟩,
                       deletedPagesJson := some ⟨"2.0", dps⟩ },
          log := w1.log ++ lg },
        { SyncResult.init with success := true }) ∧
      lg.filter Op.isWrite
        = [Op.drivePutIndex "deletedFolders.json", Op.drivePutIndex "deletedPages.json"] :=
  performSync_synced env now2 ⟨false⟩ w1 rfl h

theorem performSync_rerun_frame_witness :
    (performSync exEnv Net.allOk 7 ⟨false⟩ exSyncedWorld
        = .ok (⟨false⟩, exSyncedW1, { SyncResult.init with success := true })) ∧
    Synced exEnv exSyncedW1 ∧
    (∃ lg dfs dps, performSync exEnv Net.allOk 7 ⟨false⟩ exSyncedW1 = .ok (⟨false⟩,
        { exSyncedW1 with
          drive := { exSyncedW1.drive with
                       deletedFoldersJson := some ⟨"2.0", dfs⟩,
                       deletedPagesJson := some ⟨"2.0", dps⟩ },
          log := exSyncedW1.log ++ lg },
        { SyncResult.init with success := true }) ∧
      lg.filter Op.isWrite
        = [Op.drivePutIndex "deletedFolders.json", Op.drivePutIndex "deletedPages.json"]) :=
  ⟨rfl, exSyncedW1_synced,
   performSync_rerun_frame exEnv 7 7 ⟨false⟩ exSyncedWorld exSyncedW1
     { SyncResult.init with success := true } rfl exSyncedW1_synced⟩

/-- Claim C5 counterexample: a full sync from `exStale` completes successfully
and leaves both stores unchanged — no intervening local or remote mutation is
even possible — yet the second run reports `pagesUploaded = 1` and
`pagesDownloaded = 1`. -/
theorem performSync_second_run_counterexample :
    (runResult (performSync exEnv Net.allOk 5 ⟨false⟩ exStale)).map SyncResult.success
      = some true ∧
    (runWorld (performSync exEnv Net.allOk 5 ⟨false⟩ exStale)).map World.loc
      = some exStale.loc ∧
    (runWorld (performSync exEnv Net.allOk 5 ⟨false⟩ exStale)).map World.drive
      = some exStale.drive ∧
    ((runWorld (performSync exEnv Net.allOk 5 ⟨false⟩ exStale)).bind (fun w1 =>
        runResult (performSync exEnv Net.allOk 5 ⟨false⟩ w1)))
      = some { success := true, foldersUploaded := 0, foldersDownloaded := 0,
               foldersDeleted := 0, pagesUploaded := 1, pagesDownloaded := 1,
               pagesDeleted := 0, conflicts := 0, errors := [] } := by
  decide

/-- Claim C5 (amended): running the full sync twice in a row with no
intervening mutation produces a second result with all six upload / download /
delete counters at zero — provided the first run left a state in which the
remote store accurately mirrors the local store (`Synced`); a successful
first run does not by itself establish that state. -/
theorem performSync_second_run_counters (env : Env) (now1 now2 : Nat) (mgr : SyncMgr)
    (w0 w1 : World) (r1 : SyncResult)
    (hrun1 : performSync env Net.allOk now1 mgr w0 = .ok (⟨false⟩, w1, r1))
    (h : Synced env w1) :
    ∃ w2, performSync env Net.allOk now2 ⟨false⟩ w1 = .ok (⟨false⟩, w2,
      { success := true, foldersUploaded := 0, foldersDownloaded := 0, foldersDeleted := 0,
        pagesUploaded := 0, pagesDownloaded := 0, pagesDeleted := 0, conflicts := 0,
        errors := [] }) := by
  obtain ⟨lg, dfs, dps, heq, hw⟩ := performSync_synced env now2 ⟨false⟩ w1 rfl h
  exact ⟨_, heq⟩

theorem performSync_second_run_counters_witness :
    (performSync exEnv Net.allOk 7 ⟨false⟩ exSyncedWorld
        = .ok (⟨false⟩, exSyncedW1, { SyncResult.init with success := true })) ∧
    Synced exEnv exSyncedW1 ∧
    (∃ w2, performSync exEnv Net.allOk 7 ⟨false⟩ exSyncedW1 = .ok (⟨false⟩, w2,
      { success := true, foldersUploaded := 0, foldersDownloaded := 0, foldersDeleted := 0,
        pagesUploaded := 0, pagesDownloaded := 0, pagesDeleted := 0, conflicts := 0,
        errors := [] })) :=
  ⟨rfl, exSyncedW1_synced,
   performSync_second_run_counters exEnv 7 7 ⟨false⟩ exSyncedWorld exSyncedW1
     { SyncResult.init with success := true } rfl exSyncedW1_synced⟩

end MdPage
